import Mathlib

/-! # A verification development for `embree::vector_t`

The container of `common/sys/vector_t.h` is embedded as pure state transformers on a record
of its private members (`alloc`, `size_active`, `size_alloced`, `items`).

* `size_t` counts are natural numbers; no wrap-around is modelled in the container operations
  (a buffer of `2^63` elements cannot be obtained from any allocator).  The growth loop is
  also given in 64-bit arithmetic (`grow_loop64`) and shown to agree with the unbounded one
  for required sizes up to `2^63`.
* The pointer `items` is its null test together with the memory cells `items[0]`, `items[1]`, ...
  that it addresses.  A cell holds `some x` when a value `x` is stored in it and `none` when it
  is raw storage (freshly allocated, or its element has been destroyed).
* The allocator is a member of the container; its state is the list of calls made on it.
* `assert` is a no-op, as in a release build; the asserted condition of a method `m` is the
  separate predicate `m_assert`.
* Allocation never fails.
* A vector is a value: two vectors never share cells.  Where the claim is that they do not
  (a copy and its source), the buffers are placed in a common `heap` and `items` is an address
  (`vector_ref`).
-/

namespace embree

/-- A call that the container makes on its allocator. -/
inductive alloc_call where
  | allocate (n : Nat)
  | deallocate (n : Nat)
  | destroy (i : Nat)
deriving DecidableEq, Repr

/-- The pointer type `T*` used for `items`: whether the pointer is `nullptr`, and the cells
`p[0]`, `p[1]`, ... it addresses. -/
structure pointer (T : Type) where
  is_null : Bool
  cell : Nat → Option T

/-- The null pointer `nullptr`. -/
def pointer.nullptr {T : Type} : pointer T :=
  ⟨true, fun _ => none⟩

/-- The assignment `p[i] = x` (with `x = none`: the cell becomes raw storage). -/
def pointer.store {T : Type} (p : pointer T) (i : Nat) (x : Option T) : pointer T :=
  ⟨p.is_null, Function.update p.cell i x⟩

/-- Modelled from the spec: the allocator type `allocator_t`, which the header uses but does
not define.  Section 4.2 of the specification gives its four operations `allocate`,
`deallocate`, `construct` and `destroy`.  The state of an allocator is the list of calls
made on it so far; `null_on_zero` says whether `allocate(0)` returns `nullptr`, which the
specification leaves to the allocator. -/
structure allocator_t where
  null_on_zero : Bool
  calls : List alloc_call
deriving DecidableEq, Repr

/-- Modelled from the spec: `allocate(n)` returns raw storage for `n` elements. -/
def allocator_t.allocate {T : Type} (a : allocator_t) (n : Nat) : allocator_t × pointer T :=
  (⟨a.null_on_zero, a.calls ++ [alloc_call.allocate n]⟩,
   ⟨decide (n = 0) && a.null_on_zero, fun _ => none⟩)

/-- Modelled from the spec: `deallocate(buffer, n)` releases previously allocated storage of
size `n`. -/
def allocator_t.deallocate (a : allocator_t) (n : Nat) : allocator_t :=
  ⟨a.null_on_zero, a.calls ++ [alloc_call.deallocate n]⟩

/-- Modelled from the spec: `destroy(slot)` destructs one element in place without freeing
memory; the call is recorded with the index of the slot. -/
def allocator_t.destroy (a : allocator_t) (i : Nat) : allocator_t :=
  ⟨a.null_on_zero, a.calls ++ [alloc_call.destroy i]⟩

/-- The private members of `vector_t<T, allocator>`. -/
structure vector_t (T : Type) where
  alloc : allocator_t
  size_active : Nat
  size_alloced : Nat
  items : pointer T

/-- The loop `for (size_t i = lo; ...; i++) body`, run for `n` more iterations from `i`. -/
def for_count {σ : Type} : Nat → Nat → (Nat → σ → σ) → σ → σ
  | 0, _, _, s => s
  | n + 1, i, body, s => for_count n (i + 1) body (body i s)

/-- The loop `for (size_t i = lo; i < hi; i++) body`, for a body that changes neither `i`
nor the bounds. -/
def for_loop {σ : Type} (lo hi : Nat) (body : Nat → σ → σ) (s : σ) : σ :=
  for_count (hi - lo) lo body s

/-- The default constructor `vector_t()`; the allocator is any freshly constructed one. -/
def vector_t.mk_empty {T : Type} (a : allocator_t) : vector_t T :=
  ⟨a, 0, 0, pointer.nullptr⟩

/-- The call `alloc.destroy(&items[i])`. -/
def vector_t.destroy_item {T : Type} (v : vector_t T) (i : Nat) : vector_t T :=
  ⟨v.alloc.destroy i, v.size_active, v.size_alloced, v.items.store i none⟩

/-- The method `size()`. -/
def vector_t.size {T : Type} (v : vector_t T) : Nat := v.size_active

/-- The method `capacity()`. -/
def vector_t.capacity {T : Type} (v : vector_t T) : Nat := v.size_alloced

/-- The method `empty()`. -/
def vector_t.empty {T : Type} (v : vector_t T) : Bool := decide (v.size_active = 0)

/-- The private method `internal_resize(new_active, new_alloced)`. -/
def vector_t.internal_resize {T : Type} [Inhabited T] (v : vector_t T)
    (new_active new_alloced : Nat) : vector_t T :=
  -- destroy elements
  let v1 := for_loop new_active v.size_active (fun i s => s.destroy_item i) v
  let size_copy := if new_active < v1.size_active then new_active else v1.size_active
  let v2 : vector_t T := ⟨v1.alloc, new_active, v1.size_alloced, v1.items⟩
  -- only reallocate if necessary
  if new_alloced = v2.size_alloced then v2
  else
    -- reallocate and copy items
    let old_items := v2.items
    let r : allocator_t × pointer T := v2.alloc.allocate new_alloced
    let items1 := for_loop 0 size_copy (fun i p => p.store i (old_items.cell i)) r.2
    let items2 := for_loop size_copy v2.size_active (fun i p => p.store i (some default)) items1
    ⟨r.1.deallocate v2.size_alloced, v2.size_active, new_alloced, items2⟩

/-- The loop of `internal_grow`:
`while (new_size_alloced < new_alloced) { new_size_alloced = 2*new_size_alloced;
if (new_size_alloced == 0) new_size_alloced = 1; }`, run for at most `fuel` iterations. -/
def grow_loop : Nat → Nat → Nat → Nat
  | 0, new_size_alloced, _ => new_size_alloced
  | fuel + 1, new_size_alloced, new_alloced =>
    if new_size_alloced < new_alloced then
      grow_loop fuel (if 2 * new_size_alloced = 0 then 1 else 2 * new_size_alloced) new_alloced
    else new_size_alloced

/-- The loop of `internal_grow` in 64-bit `size_t` arithmetic, run for at most `fuel` tests of
the loop condition: the product `2*new_size_alloced` is taken modulo `2^64`.  The result is
`none` when the fuel runs out before the loop exits, and otherwise the final
`new_size_alloced` together with a flag telling whether some doubling wrapped around;
`wrapped` is the flag so far. -/
def grow_loop64 : Nat → Nat → Nat → Bool → Option (Nat × Bool)
  | 0, _, _, _ => none
  | fuel + 1, new_size_alloced, new_alloced, wrapped =>
    if new_size_alloced < new_alloced then
      grow_loop64 fuel
        (if 2 * new_size_alloced % 2 ^ 64 = 0 then 1 else 2 * new_size_alloced % 2 ^ 64)
        new_alloced (wrapped || decide (2 ^ 64 ≤ 2 * new_size_alloced))
    else some (new_size_alloced, wrapped)

/-- The private method `internal_grow(new_alloced)`.  The loop is given `new_alloced`
iterations, which is enough for it to reach its exit (`grow_loop_exit`). -/
def vector_t.internal_grow {T : Type} [Inhabited T] (v : vector_t T) (new_alloced : Nat) :
    vector_t T :=
  -- do nothing if container already large enough
  if new_alloced ≤ v.size_alloced then v
  else
    -- resize to next power of 2 otherwise
    let new_size_alloced := grow_loop new_alloced v.size_alloced new_alloced
    v.internal_resize v.size_active new_size_alloced

/-- The method `resize(new_size)`. -/
def vector_t.resize {T : Type} [Inhabited T] (v : vector_t T) (new_size : Nat) : vector_t T :=
  v.internal_resize new_size (if v.size_alloced < new_size then new_size else v.size_alloced)

/-- The method `reserve(new_alloced)`. -/
def vector_t.reserve {T : Type} [Inhabited T] (v : vector_t T) (new_alloced : Nat) :
    vector_t T :=
  -- do nothing if container already large enough
  if new_alloced ≤ v.size_alloced then v
  -- resize exact otherwise
  else v.internal_resize v.size_active new_alloced

/-- The method `shrink_to_fit()`. -/
def vector_t.shrink_to_fit {T : Type} [Inhabited T] (v : vector_t T) : vector_t T :=
  v.internal_resize v.size_active v.size_active

/-- The method `push_back(nt)`.  The argument is the value that the reference `nt` designates
when the call starts: the first statement of the method copies it into a local. -/
def vector_t.push_back {T : Type} [Inhabited T] (v : vector_t T) (nt : T) : vector_t T :=
  let x := nt
  let v1 := v.internal_grow (v.size_active + 1)
  ⟨v1.alloc, v1.size_active + 1, v1.size_alloced, v1.items.store v1.size_active (some x)⟩

/-- The method `pop_back()`. -/
def vector_t.pop_back {T : Type} (v : vector_t T) : vector_t T :=
  ⟨v.alloc, v.size_active - 1, v.size_alloced, v.items⟩

/-- The condition of `assert(!empty())` in `pop_back()`. -/
def vector_t.pop_back_assert {T : Type} (v : vector_t T) : Bool := !v.empty

/-- The constructor `vector_t(size_t sz)`; `a` is the freshly constructed allocator member. -/
def vector_t.mk_sized {T : Type} [Inhabited T] (a : allocator_t) (sz : Nat) : vector_t T :=
  (vector_t.mk_empty a).resize sz

/-- The copy constructor `vector_t(const vector_t& other)`, giving the new vector; `a` is its
default-constructed allocator member.  The argument `other` is `const` and keeps its state. -/
def vector_t.copy_construct {T : Type} (a : allocator_t) (other : vector_t T) : vector_t T :=
  let size_active := other.size_active
  let size_alloced := other.size_alloced
  let r : allocator_t × pointer T := a.allocate size_alloced
  let items := for_loop 0 size_active (fun i p => p.store i (other.items.cell i)) r.2
  ⟨r.1, size_active, size_alloced, items⟩

/-- The move constructor `vector_t(vector_t&& other)`, giving the new vector and the state that
`other` is left in.  `std::move(other.alloc)` hands over the allocator state and leaves the
moved-from allocator as it was. -/
def vector_t.move_construct {T : Type} (other : vector_t T) : vector_t T × vector_t T :=
  (⟨other.alloc, other.size_active, other.size_alloced, other.items⟩,
   ⟨other.alloc, 0, 0, pointer.nullptr⟩)

/-- The copy assignment `operator=(const vector_t& other)`, giving the new state of `*this`;
`other` is `const` and keeps its state. -/
def vector_t.copy_assign {T : Type} [Inhabited T] (v other : vector_t T) : vector_t T :=
  let v1 := v.resize other.size_active
  let items := for_loop 0 v1.size_active (fun i p => p.store i (other.items.cell i)) v1.items
  ⟨v1.alloc, v1.size_active, v1.size_alloced, items⟩

/-- The move assignment `operator=(vector_t&& other)`, giving the new state of `*this` and the
state that `other` is left in.  The members of `*this` are overwritten. -/
def vector_t.move_assign {T : Type} (_v other : vector_t T) : vector_t T × vector_t T :=
  (⟨other.alloc, other.size_active, other.size_alloced, other.items⟩,
   ⟨other.alloc, 0, 0, pointer.nullptr⟩)

/-- The method `clear()`. -/
def vector_t.clear {T : Type} (v : vector_t T) : vector_t T :=
  -- destroy elements
  let v1 := for_loop 0 v.size_active (fun i s => s.destroy_item i) v
  -- free memory
  ⟨v1.alloc.deallocate v1.size_alloced, 0, 0, pointer.nullptr⟩

/-- The condition of `assert(i < size_active)` in `operator[]`. -/
def vector_t.subscript_assert {T : Type} (v : vector_t T) (i : Nat) : Bool :=
  decide (i < v.size_active)

/-- The value of `operator[](i)`: the cell `items[i]`. -/
def vector_t.subscript {T : Type} (v : vector_t T) (i : Nat) : Option T :=
  v.items.cell i

/-- The condition of `assert(i < size_active)` in `at`. -/
def vector_t.at_assert {T : Type} (v : vector_t T) (i : Nat) : Bool :=
  decide (i < v.size_active)

/-- The value of `at(i)`: the cell `items[i]`. -/
def vector_t.at {T : Type} (v : vector_t T) (i : Nat) : Option T :=
  v.items.cell i

/-- The condition of `assert(size_active > 0)` in `front`. -/
def vector_t.front_assert {T : Type} (v : vector_t T) : Bool :=
  decide (v.size_active > 0)

/-- The value of `front()`: the cell `items[0]`. -/
def vector_t.front {T : Type} (v : vector_t T) : Option T :=
  v.items.cell 0

/-- The condition of `assert(size_active > 0)` in `back`. -/
def vector_t.back_assert {T : Type} (v : vector_t T) : Bool :=
  decide (v.size_active > 0)

/-- The value of `back()`: the cell `items[size_active-1]`. -/
def vector_t.back {T : Type} (v : vector_t T) : Option T :=
  v.items.cell (v.size_active - 1)

/-- The loop of `operator==`, run for `n` more iterations from index `i`: it returns `false`
at the first index where `a[i] != b[i]`, and `true` when it runs to its end.  The operator
`!=` of `T` is the negation of equality of values. -/
def eq_loop {T : Type} [DecidableEq T] (a b : vector_t T) : Nat → Nat → Bool
  | 0, _ => true
  | n + 1, i => if a.subscript i ≠ b.subscript i then false else eq_loop a b n (i + 1)

/-- The friend `operator==(a, b)`. -/
def vector_t.operator_eq {T : Type} [DecidableEq T] (a b : vector_t T) : Bool :=
  if a.size ≠ b.size then false
  else eq_loop a b (a.size - 0) 0

/-- The friend `operator!=(a, b)`. -/
def vector_t.operator_ne {T : Type} [DecidableEq T] (a b : vector_t T) : Bool :=
  !(a.operator_eq b)

/-- The invariant `0 <= size_active <= size_alloced`. -/
def vector_t.invariant {T : Type} (v : vector_t T) : Prop :=
  0 ≤ v.size_active ∧ v.size_active ≤ v.size_alloced

/-- The buffer is null exactly when the capacity is 0. -/
def vector_t.null_iff_no_capacity {T : Type} (v : vector_t T) : Prop :=
  v.items.is_null = true ↔ v.size_alloced = 0

/-- An allocator whose `allocate(0)` returns a pointer that is not null. -/
def nonnull_alloc : allocator_t := ⟨false, []⟩

/-- The sequence of the active elements `items[0], ..., items[size_active-1]`. -/
def vector_t.active {T : Type} (v : vector_t T) : List (Option T) :=
  (List.range v.size_active).map v.items.cell

/-- A freshly constructed allocator that has received no call. -/
def fresh_alloc : allocator_t := ⟨true, []⟩

/-- A run of `push_back` calls, first element of the list first. -/
def vector_t.push_all {T : Type} [Inhabited T] (v : vector_t T) : List T → vector_t T
  | [] => v
  | x :: xs => (v.push_back x).push_all xs

/-- The number `c` is the smallest power of two (counting `1 = 2^0` as the first) that is at
least `r`. -/
def smallest_pow2_ge (r c : Nat) : Prop :=
  (∃ e, c = 2 ^ e) ∧ r ≤ c ∧ ∀ e, r ≤ 2 ^ e → c ≤ 2 ^ e

/-- The relation between size and capacity that appending to an empty vector maintains:
both are 0, or the capacity is a power of two `2^e` not below the size, and half of it (when
`e > 0`) is below the size. -/
def grown_from_empty {T : Type} (v : vector_t T) : Prop :=
  (v.size_active = 0 ∧ v.size_alloced = 0) ∨
  (0 < v.size_active ∧ ∃ e, v.size_alloced = 2 ^ e ∧ v.size_active ≤ 2 ^ e ∧
    (e = 0 ∨ 2 ^ (e - 1) < v.size_active))

/-- The vector `[1, 2, 3]` obtained from the empty vector by three `push_back` calls; its
capacity is 4. -/
def example_123 : vector_t Nat :=
  (vector_t.mk_empty fresh_alloc).push_all [1, 2, 3]

/-- The vector `[1, 2, 3]` obtained from the empty vector by `reserve(3)` and three
`push_back` calls; its capacity is 3. -/
def example_reserved_123 : vector_t Nat :=
  ((vector_t.mk_empty fresh_alloc).reserve 3).push_all [1, 2, 3]

/-! ### Several vectors in one heap

For the independence of a copy from its source the buffers of the two vectors are placed in a
common heap and `items` is an address.  The methods below are the same methods as above, at
this level; the allocator member is reduced to what `allocate(0)` returns. -/

/-- A heap of buffers.  Address 0 is `nullptr`; the addresses `1, ..., next` have been handed
out by `allocate`; `live p` tells whether the buffer at `p` is allocated; `block p i` is the
cell `p[i]`. -/
structure heap (T : Type) where
  next : Nat
  live : Nat → Bool
  block : Nat → Nat → Option T

/-- The assignment `p[i] = x` in a heap. -/
def heap.store {T : Type} (h : heap T) (p i : Nat) (x : Option T) : heap T :=
  ⟨h.next, h.live, Function.update h.block p (Function.update (h.block p) i x)⟩

/-- Modelled from the spec: `allocate(n)` in a heap.  It returns `nullptr` for `n = 0` when the
allocator does so, and otherwise the address of a buffer that was not handed out before, with
raw cells. -/
def heap.allocate {T : Type} (h : heap T) (null_on_zero : Bool) (n : Nat) : heap T × Nat :=
  if n = 0 ∧ null_on_zero = true then (h, 0)
  else
    (⟨h.next + 1, Function.update h.live (h.next + 1) true,
      Function.update h.block (h.next + 1) (fun _ => none)⟩, h.next + 1)

/-- Modelled from the spec: `deallocate(p, n)` in a heap releases the buffer at `p`. -/
def heap.deallocate {T : Type} (h : heap T) (p : Nat) : heap T :=
  ⟨h.next, Function.update h.live p false, h.block⟩

/-- The members of a `vector_t` whose buffer is in a heap: what `allocate(0)` of its allocator
returns, the two counts, and the address `items`. -/
structure vector_ref where
  null_on_zero : Bool
  size_active : Nat
  size_alloced : Nat
  items : Nat
deriving DecidableEq, Repr

/-- The method `size()` of a vector in a heap. -/
def vector_ref.size (v : vector_ref) : Nat := v.size_active

/-- The private method `internal_resize(new_active, new_alloced)` in a heap. -/
def vector_ref.internal_resize {T : Type} [Inhabited T] (s : heap T × vector_ref)
    (new_active new_alloced : Nat) : heap T × vector_ref :=
  -- destroy elements
  let h1 := for_loop new_active s.2.size_active (fun i h => h.store s.2.items i none) s.1
  let size_copy := if new_active < s.2.size_active then new_active else s.2.size_active
  -- only reallocate if necessary
  if new_alloced = s.2.size_alloced then
    (h1, ⟨s.2.null_on_zero, new_active, s.2.size_alloced, s.2.items⟩)
  else
    -- reallocate and copy items
    let old_items := s.2.items
    let r : heap T × Nat := h1.allocate s.2.null_on_zero new_alloced
    let h2 := for_loop 0 size_copy (fun i h => h.store r.2 i (h.block old_items i)) r.1
    let h3 := for_loop size_copy new_active (fun i h => h.store r.2 i (some default)) h2
    (h3.deallocate old_items, ⟨s.2.null_on_zero, new_active, new_alloced, r.2⟩)

/-- The private method `internal_grow(new_alloced)` in a heap. -/
def vector_ref.internal_grow {T : Type} [Inhabited T] (s : heap T × vector_ref)
    (new_alloced : Nat) : heap T × vector_ref :=
  if new_alloced ≤ s.2.size_alloced then s
  else
    let new_size_alloced := grow_loop new_alloced s.2.size_alloced new_alloced
    vector_ref.internal_resize s s.2.size_active new_size_alloced

/-- The method `resize(new_size)` in a heap. -/
def vector_ref.resize {T : Type} [Inhabited T] (s : heap T × vector_ref) (new_size : Nat) :
    heap T × vector_ref :=
  vector_ref.internal_resize s new_size
    (if s.2.size_alloced < new_size then new_size else s.2.size_alloced)

/-- The method `push_back(nt)` in a heap. -/
def vector_ref.push_back {T : Type} [Inhabited T] (s : heap T × vector_ref) (nt : T) :
    heap T × vector_ref :=
  let x := nt
  let s1 := vector_ref.internal_grow s (s.2.size_active + 1)
  (s1.1.store s1.2.items s1.2.size_active (some x),
   ⟨s1.2.null_on_zero, s1.2.size_active + 1, s1.2.size_alloced, s1.2.items⟩)

/-- The method `pop_back()` in a heap. -/
def vector_ref.pop_back {T : Type} (s : heap T × vector_ref) : heap T × vector_ref :=
  (s.1, ⟨s.2.null_on_zero, s.2.size_active - 1, s.2.size_alloced, s.2.items⟩)

/-- The element overwrite `v[i] = x` in a heap. -/
def vector_ref.assign {T : Type} (s : heap T × vector_ref) (i : Nat) (x : T) :
    heap T × vector_ref :=
  (s.1.store s.2.items i (some x), s.2)

/-- The copy constructor `vector_t(const vector_t& other)` in a heap; `null_on_zero` is what
`allocate(0)` of the new allocator member returns. -/
def vector_ref.copy_construct {T : Type} (h : heap T) (null_on_zero : Bool)
    (other : vector_ref) : heap T × vector_ref :=
  let size_active := other.size_active
  let size_alloced := other.size_alloced
  let r : heap T × Nat := h.allocate null_on_zero size_alloced
  let h1 := for_loop 0 size_active (fun i h => h.store r.2 i (h.block other.items i)) r.1
  (h1, ⟨null_on_zero, size_active, size_alloced, r.2⟩)

/-- A call that changes a vector: `push_back(x)`, `pop_back()`, `resize(n)` or `v[i] = x`. -/
inductive mutation (T : Type) where
  | push_back (x : T)
  | pop_back
  | resize (n : Nat)
  | assign (i : Nat) (x : T)

/-- The effect of a call on a vector in a heap. -/
def mutation.apply {T : Type} [Inhabited T] :
    mutation T → heap T × vector_ref → heap T × vector_ref
  | mutation.push_back x, s => vector_ref.push_back s x
  | mutation.pop_back, s => vector_ref.pop_back s
  | mutation.resize n, s => vector_ref.resize s n
  | mutation.assign i x, s => vector_ref.assign s i x

/-- The condition that the call asserts: `pop_back()` asserts a non-empty vector and `v[i]`
asserts `i < size_active`. -/
def mutation.asserted {T : Type} : mutation T → vector_ref → Bool
  | mutation.push_back _, _ => true
  | mutation.pop_back, v => decide (v.size_active > 0)
  | mutation.resize _, _ => true
  | mutation.assign i _, v => decide (i < v.size_active)

/-- A run of calls on one vector in a heap, first call first; `none` when an assertion of a
call does not hold. -/
def mutation.run {T : Type} [Inhabited T] :
    List (mutation T) → heap T × vector_ref → Option (heap T × vector_ref)
  | [], s => some s
  | m :: ms, s => if m.asserted s.2 = true then mutation.run ms (m.apply s) else none

/-- The state `s2` keeps the buffer at address `q` of the state `s1`: same cells, still as
live, `q` among the addresses handed out, and not the buffer of the vector of `s2`. -/
def keeps_buffer {T : Type} (q : Nat) (s1 s2 : heap T × vector_ref) : Prop :=
  s2.1.block q = s1.1.block q ∧ s2.1.live q = s1.1.live q ∧ q ≤ s2.1.next ∧ s2.2.items ≠ q

/-- The vector that a heap holds for the members `v`: its counts, and the cells of the buffer
at the address `items`. -/
def vector_ref.view {T : Type} (v : vector_ref) (h : heap T) : vector_t T :=
  ⟨⟨v.null_on_zero, []⟩, v.size_active, v.size_alloced, ⟨decide (v.items = 0), h.block v.items⟩⟩

/-- A heap with one buffer, at address 1, holding `[1, 2, 3]` in four slots. -/
def example_heap : heap Nat :=
  ⟨1, fun p => decide (p = 1),
    fun p i => if p = 1 then (if i = 0 then some 1 else if i = 1 then some 2
      else if i = 2 then some 3 else none) else none⟩

/-- The vector `[1, 2, 3]` with capacity 4 whose buffer is at address 1. -/
def example_ref : vector_ref := ⟨true, 3, 4, 1⟩

end embree

/-! ## Loops and reallocation -/

namespace embree

theorem store_loop_eq {T : Type} (f : Nat → Option T) (n lo : Nat) (p : pointer T) :
    for_count n lo (fun i q => q.store i (f i)) p =
      ⟨p.is_null, fun j => if lo ≤ j ∧ j < lo + n then f j else p.cell j⟩ := by
  induction n generalizing lo p with
  | zero =>
    cases p
    simp only [for_count, pointer.mk.injEq, true_and]
    funext j
    have h0 : ¬ (lo ≤ j ∧ j < lo) := by omega
    simp only [Nat.add_zero, if_neg h0]
  | succ n ih =>
    rw [for_count, ih]
    simp only [pointer.store, pointer.mk.injEq, true_and]
    funext j
    by_cases hj : j = lo
    · subst hj
      simp
    · have h1 : (lo + 1 ≤ j ∧ j < lo + 1 + n) ↔ (lo ≤ j ∧ j < lo + (n + 1)) := by omega
      simp [Function.update, hj, h1]

theorem destroy_loop_eq {T : Type} (n lo : Nat) (v : vector_t T) :
    for_count n lo (fun i (s : vector_t T) => s.destroy_item i) v =
      ⟨⟨v.alloc.null_on_zero, v.alloc.calls ++ (List.range' lo n).map alloc_call.destroy⟩,
        v.size_active, v.size_alloced,
        ⟨v.items.is_null, fun j => if lo ≤ j ∧ j < lo + n then none else v.items.cell j⟩⟩ := by
  induction n generalizing lo v with
  | zero =>
    rcases v with ⟨⟨z, c⟩, a, b, ⟨nl, m⟩⟩
    simp only [for_count, List.range'_zero, List.map_nil, List.append_nil, vector_t.mk.injEq,
      pointer.mk.injEq, true_and]
    funext j
    have h0 : ¬ (lo ≤ j ∧ j < lo) := by omega
    simp only [Nat.add_zero, if_neg h0]
  | succ n ih =>
    rw [for_count, ih]
    simp only [vector_t.destroy_item, allocator_t.destroy, pointer.store,
      vector_t.mk.injEq, allocator_t.mk.injEq, pointer.mk.injEq, true_and, and_true,
      List.range'_succ, List.map_cons, List.append_assoc, List.singleton_append]
    funext j
    by_cases hj : j = lo
    · subst hj
      simp
    · have h1 : (lo + 1 ≤ j ∧ j < lo + 1 + n) ↔ (lo ≤ j ∧ j < lo + (n + 1)) := by omega
      simp [Function.update, hj, h1]

theorem internal_resize_same {T : Type} [Inhabited T] (v : vector_t T) (new_active : Nat) :
    v.internal_resize new_active v.size_alloced =
      ⟨⟨v.alloc.null_on_zero, v.alloc.calls ++
          (List.range' new_active (v.size_active - new_active)).map alloc_call.destroy⟩,
        new_active, v.size_alloced,
        ⟨v.items.is_null,
          fun j => if new_active ≤ j ∧ j < v.size_active then none else v.items.cell j⟩⟩ := by
  simp only [vector_t.internal_resize, for_loop, destroy_loop_eq, if_true,
    vector_t.mk.injEq, allocator_t.mk.injEq, pointer.mk.injEq, true_and, and_true]
  funext j
  have h1 : (new_active ≤ j ∧ j < new_active + (v.size_active - new_active)) ↔
      (new_active ≤ j ∧ j < v.size_active) := by omega
  simp [h1]

theorem internal_resize_realloc {T : Type} [Inhabited T] (v : vector_t T)
    (new_active new_alloced : Nat) (h : new_alloced ≠ v.size_alloced) :
    v.internal_resize new_active new_alloced =
      ⟨⟨v.alloc.null_on_zero, v.alloc.calls ++
          ((List.range' new_active (v.size_active - new_active)).map alloc_call.destroy ++
            [alloc_call.allocate new_alloced, alloc_call.deallocate v.size_alloced])⟩,
        new_active, new_alloced,
        ⟨decide (new_alloced = 0) && v.alloc.null_on_zero,
          fun j => if j < new_active ∧ j < v.size_active then v.items.cell j
            else if j < new_active then some default else none⟩⟩ := by
  simp only [vector_t.internal_resize, for_loop, destroy_loop_eq, store_loop_eq, if_neg h,
    allocator_t.allocate, allocator_t.deallocate,
    vector_t.mk.injEq, allocator_t.mk.injEq, pointer.mk.injEq, true_and, and_true]
  refine ⟨by simp, ?_⟩
  funext j
  by_cases h1 : new_active < v.size_active
  · by_cases h2 : j < new_active
    · have h3 : j < v.size_active := by omega
      have h4 : ¬ (new_active ≤ j) := by omega
      simp [h1, h2, h3, h4]
    · simp [h1, h2]
  · by_cases h2 : j < v.size_active
    · have h3 : j < new_active := by omega
      have h4 : ¬ (new_active ≤ j) := by omega
      simp [h1, h2, h3, h4]
    · by_cases h3 : j < new_active
      · have h5 : v.size_active ≤ j ∧ j < v.size_active + (new_active - v.size_active) := by omega
        simp [h1, h2, h3, h5]
      · have h5 : ¬ (v.size_active ≤ j ∧ j < v.size_active + (new_active - v.size_active)) := by
          omega
        simp [h1, h2, h3, h5]

theorem internal_resize_size_active {T : Type} [Inhabited T] (v : vector_t T) (a n : Nat) :
    (v.internal_resize a n).size_active = a := by
  by_cases hn : n = v.size_alloced
  · subst hn
    rw [internal_resize_same]
  · rw [internal_resize_realloc v a n hn]

theorem internal_resize_size_alloced {T : Type} [Inhabited T] (v : vector_t T) (a n : Nat) :
    (v.internal_resize a n).size_alloced = n := by
  by_cases hn : n = v.size_alloced
  · subst hn
    rw [internal_resize_same]
  · rw [internal_resize_realloc v a n hn]

theorem internal_resize_cell_lt {T : Type} [Inhabited T] (v : vector_t T) (a n i : Nat)
    (h1 : i < a) (h2 : i < v.size_active) :
    (v.internal_resize a n).items.cell i = v.items.cell i := by
  by_cases hn : n = v.size_alloced
  · subst hn
    rw [internal_resize_same]
    have h3 : ¬ (a ≤ i ∧ i < v.size_active) := by omega
    simp only [if_neg h3]
  · rw [internal_resize_realloc v a n hn]
    simp only [h1, h2, and_self, if_true]

theorem internal_resize_cell_new {T : Type} [Inhabited T] (v : vector_t T) (a n i : Nat)
    (hn : n ≠ v.size_alloced) (h1 : v.size_active ≤ i) (h2 : i < a) :
    (v.internal_resize a n).items.cell i = some default := by
  rw [internal_resize_realloc v a n hn]
  have h3 : ¬ (i < a ∧ i < v.size_active) := by omega
  show (if i < a ∧ i < v.size_active then v.items.cell i
    else if i < a then some default else none) = some default
  rw [if_neg h3, if_pos h2]

theorem grow_loop_done (fuel n r : Nat) (h : r ≤ n) : grow_loop fuel n r = n := by
  cases fuel with
  | zero => rfl
  | succ f =>
    have h1 : ¬ n < r := by omega
    simp only [grow_loop, if_neg h1]

theorem grow_loop_exit (fuel n r : Nat) (h : r ≤ n + fuel) : r ≤ grow_loop fuel n r := by
  induction fuel generalizing n with
  | zero => simpa [grow_loop] using h
  | succ f ih =>
    by_cases h1 : n < r
    · simp only [grow_loop, if_pos h1]
      apply ih
      split <;> omega
    · simp only [grow_loop, if_neg h1]
      omega

theorem grow_loop_pos (fuel n r : Nat) (hn : 0 < n) (h : r ≤ n + fuel) :
    ∃ k, grow_loop fuel n r = n * 2 ^ k ∧ r ≤ n * 2 ^ k ∧ ∀ j, j < k → n * 2 ^ j < r := by
  induction fuel generalizing n with
  | zero =>
    refine ⟨0, ?_, ?_, ?_⟩
    · simp [grow_loop]
    · simpa using h
    · intro j hj
      omega
  | succ f ih =>
    by_cases h1 : n < r
    · have h2 : ¬ (2 * n = 0) := by omega
      simp only [grow_loop, if_pos h1, if_neg h2]
      obtain ⟨k, e1, e2, e3⟩ := ih (2 * n) (by omega) (by omega)
      refine ⟨k + 1, ?_, ?_, ?_⟩
      · rw [e1, pow_succ]
        ring
      · rw [pow_succ]
        calc r ≤ 2 * n * 2 ^ k := e2
          _ = n * (2 ^ k * 2) := by ring
      · intro j hj
        cases j with
        | zero => simpa using h1
        | succ j =>
          have := e3 j (by omega)
          rw [pow_succ]
          calc n * (2 ^ j * 2) = 2 * n * 2 ^ j := by ring
            _ < r := this
    · refine ⟨0, ?_, ?_, ?_⟩
      · simp [grow_loop, if_neg h1]
      · simp only [pow_zero, Nat.mul_one]
        omega
      · intro j hj
        omega

theorem grow_loop_zero (fuel r : Nat) (hr : 0 < r) (h : r ≤ fuel) :
    ∃ k, grow_loop fuel 0 r = 2 ^ k ∧ r ≤ 2 ^ k ∧ ∀ j, j < k → 2 ^ j < r := by
  cases fuel with
  | zero => omega
  | succ f =>
    simp only [grow_loop, if_pos hr, Nat.mul_zero, if_true]
    obtain ⟨k, e1, e2, e3⟩ := grow_loop_pos f 1 r (by omega) (by omega)
    refine ⟨k, by simpa using e1, by simpa using e2, ?_⟩
    intro j hj
    simpa using e3 j hj

end embree

/-! ## Growth on append -/

namespace embree

theorem internal_grow_of_le {T : Type} [Inhabited T] (v : vector_t T) (r : Nat)
    (h : r ≤ v.size_alloced) : v.internal_grow r = v := by
  simp only [vector_t.internal_grow, if_pos h]

theorem internal_grow_of_gt {T : Type} [Inhabited T] (v : vector_t T) (r : Nat)
    (h : v.size_alloced < r) :
    v.internal_grow r = v.internal_resize v.size_active (grow_loop r v.size_alloced r) := by
  have h1 : ¬ r ≤ v.size_alloced := by omega
  simp only [vector_t.internal_grow, if_neg h1]

theorem internal_grow_size_active {T : Type} [Inhabited T] (v : vector_t T) (r : Nat) :
    (v.internal_grow r).size_active = v.size_active := by
  by_cases h : r ≤ v.size_alloced
  · rw [internal_grow_of_le v r h]
  · rw [internal_grow_of_gt v r (by omega), internal_resize_size_active]

theorem internal_grow_cell_lt {T : Type} [Inhabited T] (v : vector_t T) (r i : Nat)
    (hi : i < v.size_active) : (v.internal_grow r).items.cell i = v.items.cell i := by
  by_cases h : r ≤ v.size_alloced
  · rw [internal_grow_of_le v r h]
  · rw [internal_grow_of_gt v r (by omega), internal_resize_cell_lt v _ _ i hi hi]

theorem internal_grow_size_alloced {T : Type} [Inhabited T] (v : vector_t T) (r : Nat)
    (h : v.size_alloced < r) :
    (v.internal_grow r).size_alloced = grow_loop r v.size_alloced r := by
  rw [internal_grow_of_gt v r h, internal_resize_size_alloced]

theorem push_back_size_active {T : Type} [Inhabited T] (v : vector_t T) (x : T) :
    (v.push_back x).size_active = v.size_active + 1 := by
  simp only [vector_t.push_back, internal_grow_size_active]

theorem push_back_size_alloced {T : Type} [Inhabited T] (v : vector_t T) (x : T) :
    (v.push_back x).size_alloced = (v.internal_grow (v.size_active + 1)).size_alloced := by
  simp only [vector_t.push_back]

theorem push_back_cell_lt {T : Type} [Inhabited T] (v : vector_t T) (x : T) (i : Nat)
    (hi : i < v.size_active) : (v.push_back x).items.cell i = v.items.cell i := by
  have h1 : i ≠ v.size_active := by omega
  simp only [vector_t.push_back, pointer.store, internal_grow_size_active, ne_eq, h1,
    not_false_eq_true, Function.update_noteq, internal_grow_cell_lt v _ i hi]

theorem push_back_cell_last {T : Type} [Inhabited T] (v : vector_t T) (x : T) :
    (v.push_back x).items.cell v.size_active = some x := by
  simp only [vector_t.push_back, pointer.store, internal_grow_size_active,
    Function.update_same]

theorem push_back_full_size_alloced {T : Type} [Inhabited T] (v : vector_t T) (x : T)
    (h : v.size_active = v.size_alloced) :
    (v.push_back x).size_alloced = if v.size_alloced = 0 then 1 else 2 * v.size_alloced := by
  rw [push_back_size_alloced, internal_grow_size_alloced v _ (by omega), h]
  have h1 : v.size_alloced < v.size_alloced + 1 := by omega
  simp only [grow_loop, if_pos h1]
  rw [grow_loop_done]
  · by_cases h0 : v.size_alloced = 0
    · simp [h0]
    · have h2 : ¬ 2 * v.size_alloced = 0 := by omega
      simp only [if_neg h0, if_neg h2]
  · split <;> omega

theorem push_back_room {T : Type} [Inhabited T] (v : vector_t T) (x : T)
    (h : v.size_active < v.size_alloced) :
    (v.push_back x).size_alloced = v.size_alloced ∧ (v.push_back x).alloc = v.alloc := by
  simp only [vector_t.push_back, internal_grow_of_le v (v.size_active + 1) (by omega),
    and_self]

theorem grow_loop_fuel (fuel extra n r : Nat) (h : r ≤ n + fuel) :
    grow_loop (fuel + extra) n r = grow_loop fuel n r := by
  induction fuel generalizing n with
  | zero => rw [grow_loop_done _ n r (by omega), grow_loop_done _ n r (by omega)]
  | succ f ih =>
    rw [Nat.add_right_comm]
    by_cases h1 : n < r
    · simp only [grow_loop, if_pos h1]
      apply ih
      split <;> omega
    · simp only [grow_loop, if_neg h1]

theorem internal_grow_exit {T : Type} [Inhabited T] (v : vector_t T) (r : Nat) :
    r ≤ (v.internal_grow r).size_alloced := by
  by_cases h : r ≤ v.size_alloced
  · rw [internal_grow_of_le v r h]
    exact h
  · rw [internal_grow_size_alloced v r (by omega)]
    exact grow_loop_exit r v.size_alloced r (by omega)

theorem push_back_active {T : Type} [Inhabited T] (v : vector_t T) (x : T) :
    (v.push_back x).active = v.active ++ [some x] := by
  simp only [vector_t.active, push_back_size_active, List.range_succ, List.map_append,
    List.map_cons, List.map_nil, push_back_cell_last]
  congr 1
  apply List.map_congr_left
  intro i hi
  exact push_back_cell_lt v x i (List.mem_range.mp hi)

theorem push_all_size_active {T : Type} [Inhabited T] (xs : List T) (v : vector_t T) :
    (v.push_all xs).size_active = v.size_active + xs.length := by
  induction xs generalizing v with
  | nil => simp [vector_t.push_all]
  | cons x xs ih =>
    simp only [vector_t.push_all, ih, push_back_size_active, List.length_cons]
    omega

theorem push_all_active {T : Type} [Inhabited T] (xs : List T) (v : vector_t T) :
    (v.push_all xs).active = v.active ++ xs.map some := by
  induction xs generalizing v with
  | nil => simp [vector_t.push_all]
  | cons x xs ih =>
    simp only [vector_t.push_all, ih, push_back_active, List.map_cons, List.append_assoc,
      List.singleton_append]

theorem push_back_grown {T : Type} [Inhabited T] (v : vector_t T) (x : T)
    (h : grown_from_empty v) : grown_from_empty (v.push_back x) := by
  right
  rw [push_back_size_active]
  refine ⟨by omega, ?_⟩
  rcases h with ⟨h1, h2⟩ | ⟨h1, e, h2, h3, h4⟩
  · refine ⟨0, ?_, ?_, Or.inl rfl⟩
    · rw [push_back_full_size_alloced v x (by omega), if_pos h2]
      rfl
    · omega
  · have hpos : 0 < 2 ^ e := Nat.two_pow_pos e
    by_cases hlt : v.size_active < v.size_alloced
    · refine ⟨e, ?_, ?_, ?_⟩
      · rw [(push_back_room v x hlt).1, h2]
      · omega
      · rcases h4 with h4 | h4
        · exact Or.inl h4
        · exact Or.inr (by omega)
    · have heq : v.size_active = v.size_alloced := by omega
      have hne : ¬ v.size_alloced = 0 := by omega
      refine ⟨e + 1, ?_, ?_, Or.inr ?_⟩
      · rw [push_back_full_size_alloced v x heq, if_neg hne, h2, pow_succ]
        ring
      · rw [pow_succ]
        omega
      · rw [Nat.add_sub_cancel]
        omega

theorem push_all_grown {T : Type} [Inhabited T] (xs : List T) (v : vector_t T)
    (h : grown_from_empty v) : grown_from_empty (v.push_all xs) := by
  induction xs generalizing v with
  | nil => exact h
  | cons x xs ih => exact ih _ (push_back_grown v x h)

theorem grown_smallest {T : Type} (v : vector_t T) (h : grown_from_empty v)
    (hpos : 0 < v.size_active) : smallest_pow2_ge v.size_active v.size_alloced := by
  rcases h with ⟨h1, _⟩ | ⟨_, e, h2, h3, h4⟩
  · omega
  · refine ⟨⟨e, h2⟩, by omega, ?_⟩
    intro e' he'
    rw [h2]
    apply Nat.pow_le_pow_right (by decide)
    rcases h4 with h4 | h4
    · omega
    · have h5 : 2 ^ (e - 1) < 2 ^ e' := by omega
      have h6 : e - 1 < e' := (Nat.pow_lt_pow_iff_right (by decide)).mp h5
      omega

theorem resize_of_gt {T : Type} [Inhabited T] (v : vector_t T) (n : Nat)
    (h : v.size_alloced < n) : v.resize n = v.internal_resize n n := by
  simp only [vector_t.resize, if_pos h]

theorem resize_of_le {T : Type} [Inhabited T] (v : vector_t T) (n : Nat)
    (h : n ≤ v.size_alloced) : v.resize n = v.internal_resize n v.size_alloced := by
  have h1 : ¬ v.size_alloced < n := by omega
  simp only [vector_t.resize, if_neg h1]

theorem resize_grow_within_capacity {T : Type} [Inhabited T] (v : vector_t T) (j : Nat)
    (h1 : v.size_active ≤ j) (h2 : j ≤ v.size_alloced) :
    (v.resize j).size_active = j ∧ (v.resize j).size_alloced = v.size_alloced ∧
    (v.resize j).alloc.calls = v.alloc.calls ∧
    ∀ i, (v.resize j).items.cell i = v.items.cell i := by
  rw [resize_of_le v j h2, internal_resize_same]
  have h0 : v.size_active - j = 0 := by omega
  refine ⟨rfl, rfl, by simp [h0], ?_⟩
  intro i
  have h3 : ¬ (j ≤ i ∧ i < v.size_active) := by omega
  simp only [if_neg h3]

theorem push_all_room {T : Type} [Inhabited T] (xs : List T) (v : vector_t T)
    (h : v.size_active + xs.length ≤ v.size_alloced) :
    (v.push_all xs).size_alloced = v.size_alloced ∧ (v.push_all xs).alloc = v.alloc := by
  induction xs generalizing v with
  | nil => exact ⟨rfl, rfl⟩
  | cons x xs ih =>
    rw [List.length_cons] at h
    have hr := push_back_room v x (by omega)
    have := ih (v.push_back x) (by rw [push_back_size_active, hr.1]; omega)
    simp only [vector_t.push_all, this.1, this.2, hr.1, hr.2, and_self]

end embree

/-! ## The claims -/

namespace embree

/-- C1: `push_back(x)` on a vector with `size <= capacity` gives size `old size + 1`, keeps
every element below the old size, and stores `x` in the last slot; in particular, when `x`
is the value `y` of an existing element `v[i]`, the appended element is `y` and `v[i]` still
holds `y`, whether the append stays within capacity or reallocates. -/
theorem push_back_appends {T : Type} [Inhabited T] (v : vector_t T) (x : T)
    (_h : v.size ≤ v.capacity) :
    (v.push_back x).size = v.size + 1 ∧
    (∀ i, i < v.size → (v.push_back x).items.cell i = v.items.cell i) ∧
    (v.push_back x).items.cell ((v.push_back x).size - 1) = some x ∧
    (∀ i y, i < v.size → v.items.cell i = some y →
      (v.push_back y).items.cell v.size = some y ∧ (v.push_back y).items.cell i = some y) := by
  refine ⟨push_back_size_active v x, fun i hi => push_back_cell_lt v x i hi, ?_, ?_⟩
  · show (v.push_back x).items.cell ((v.push_back x).size_active - 1) = some x
    rw [push_back_size_active, Nat.add_sub_cancel]
    exact push_back_cell_last v x
  · intro i y hi hy
    exact ⟨push_back_cell_last v y, by rw [push_back_cell_lt v y i hi, hy]⟩

/-- Witness for C1 on `[1, 2, 3]` with capacity 4, appending the value 7. -/
theorem push_back_appends_witness :
    example_123.size ≤ example_123.capacity ∧
    ((example_123.push_back 7).size = example_123.size + 1 ∧
    (∀ i, i < example_123.size →
      (example_123.push_back 7).items.cell i = example_123.items.cell i) ∧
    (example_123.push_back 7).items.cell ((example_123.push_back 7).size - 1) = some 7 ∧
    (∀ i y, i < example_123.size → example_123.items.cell i = some y →
      (example_123.push_back y).items.cell example_123.size = some y ∧
      (example_123.push_back y).items.cell i = some y)) :=
  ⟨by decide, push_back_appends example_123 7 (by decide)⟩

/-- C2: starting from the default-constructed empty vector, `push_back(x1)`, ...,
`push_back(xn)` gives size `n`, the active sequence `[x1, ..., xn]` and a capacity of at
least `n`; the capacity is 0 before the first push and, after each prefix of `k >= 1`
pushes, it is the smallest power of two that is at least `k`. -/
theorem push_all_from_empty {T : Type} [Inhabited T] (a : allocator_t) (xs : List T) :
    ((vector_t.mk_empty a).push_all xs).size = xs.length ∧
    ((vector_t.mk_empty a).push_all xs).active = xs.map some ∧
    xs.length ≤ ((vector_t.mk_empty a).push_all xs).capacity ∧
    (vector_t.mk_empty a : vector_t T).capacity = 0 ∧
    (∀ k, 1 ≤ k → k ≤ xs.length →
      ((vector_t.mk_empty a).push_all (xs.take k)).size = k ∧
      smallest_pow2_ge k ((vector_t.mk_empty a).push_all (xs.take k)).capacity) := by
  have h0 : grown_from_empty (vector_t.mk_empty a : vector_t T) := Or.inl ⟨rfl, rfl⟩
  have hsize : ∀ ys : List T, ((vector_t.mk_empty a).push_all ys).size_active = ys.length := by
    intro ys
    rw [push_all_size_active]
    simp [vector_t.mk_empty]
  refine ⟨hsize xs, ?_, ?_, rfl, ?_⟩
  · rw [push_all_active]
    simp [vector_t.active, vector_t.mk_empty]
  · rcases push_all_grown xs _ h0 with ⟨h1, h2⟩ | ⟨_, e, h2, h3, _⟩
    · rw [hsize xs] at h1
      omega
    · rw [hsize xs] at h3
      show xs.length ≤ ((vector_t.mk_empty a).push_all xs).size_alloced
      omega
  · intro k hk1 hk2
    have hlen : (xs.take k).length = k := by
      rw [List.length_take]
      omega
    have hs := hsize (xs.take k)
    rw [hlen] at hs
    refine ⟨hs, ?_⟩
    have := grown_smallest _ (push_all_grown (xs.take k) _ h0) (by omega)
    rw [hs] at this
    exact this

/-- C3: on a vector with `size <= capacity`, `push_back` leaves the capacity unchanged when
`size < capacity`; when `size == capacity` the new capacity is 1 if the capacity was 0 and
twice the old capacity otherwise; in every case the new capacity is at least the old size
plus one. -/
theorem push_back_capacity {T : Type} [Inhabited T] (v : vector_t T) (x : T)
    (h : v.size ≤ v.capacity) :
    (v.size < v.capacity → (v.push_back x).capacity = v.capacity) ∧
    (v.size = v.capacity →
      (v.push_back x).capacity = if v.capacity = 0 then 1 else 2 * v.capacity) ∧
    v.size + 1 ≤ (v.push_back x).capacity := by
  have h' : v.size_active ≤ v.size_alloced := h
  refine ⟨fun hlt => (push_back_room v x hlt).1, fun heq => push_back_full_size_alloced v x heq,
    ?_⟩
  show v.size_active + 1 ≤ (v.push_back x).size_alloced
  by_cases hlt : v.size_active < v.size_alloced
  · rw [(push_back_room v x hlt).1]
    omega
  · rw [push_back_full_size_alloced v x (by omega)]
    split <;> omega

/-- Witness for C3 on `[1, 2, 3]` with capacity 3 (full, and not a power of two). -/
theorem push_back_capacity_witness :
    example_reserved_123.size ≤ example_reserved_123.capacity ∧
    ((example_reserved_123.size < example_reserved_123.capacity →
      (example_reserved_123.push_back 4).capacity = example_reserved_123.capacity) ∧
    (example_reserved_123.size = example_reserved_123.capacity →
      (example_reserved_123.push_back 4).capacity =
        if example_reserved_123.capacity = 0 then 1 else 2 * example_reserved_123.capacity) ∧
    example_reserved_123.size + 1 ≤ (example_reserved_123.push_back 4).capacity) :=
  ⟨by decide, push_back_capacity example_reserved_123 4 (by decide)⟩

/-- C4 fails on the code: after `reserve(3)` and three appends the capacity is 3, and growing
for a required size of 4 (as the fourth `push_back` does) starts the doubling at 3 and selects
6, which is not the smallest power of two that is at least 4; the comment of `internal_grow`
says "resize to next power of 2". -/
theorem internal_grow_not_smallest_pow2 :
    example_reserved_123.capacity = 3 ∧
    (example_reserved_123.internal_grow 4).capacity = 6 ∧
    (example_reserved_123.push_back 4).capacity = 6 ∧
    ¬ smallest_pow2_ge 4 (example_reserved_123.internal_grow 4).capacity := by
  have h6 : (example_reserved_123.internal_grow 4).capacity = 6 := by decide
  refine ⟨by decide, h6, by decide, ?_⟩
  rintro ⟨_, _, hmin⟩
  have h4 := hmin 2 (by decide)
  rw [h6] at h4
  omega

/-- What the loop of `internal_grow` computes: for a current capacity `c` and a required size
`r > c` it is `c * 2^k` for the least `k` with `c * 2^k >= r` when `c > 0`, which is the
smallest power of two that is at least `r` only when `c` is 0 or a power of two. -/
theorem internal_grow_capacity {T : Type} [Inhabited T] (v : vector_t T) (r : Nat)
    (h : v.capacity < r) :
    (0 < v.capacity → ∃ k, (v.internal_grow r).capacity = v.capacity * 2 ^ k ∧
      r ≤ v.capacity * 2 ^ k ∧ ∀ j, j < k → v.capacity * 2 ^ j < r) ∧
    (v.capacity = 0 ∨ (∃ e, v.capacity = 2 ^ e) →
      smallest_pow2_ge r (v.internal_grow r).capacity) := by
  have h' : v.size_alloced < r := h
  have hcap : (v.internal_grow r).capacity = grow_loop r v.size_alloced r :=
    internal_grow_size_alloced v r h'
  rw [hcap]
  show (0 < v.size_alloced → _) ∧ (v.size_alloced = 0 ∨ (∃ e, v.size_alloced = 2 ^ e) → _)
  constructor
  · intro hpos
    exact grow_loop_pos r v.size_alloced r hpos (by omega)
  · rintro (h0 | ⟨e, he⟩)
    · rw [h0]
      obtain ⟨k, e1, e2, e3⟩ := grow_loop_zero r r (by omega) (le_refl r)
      rw [e1]
      refine ⟨⟨k, rfl⟩, e2, ?_⟩
      intro e' he'
      apply Nat.pow_le_pow_right (by decide)
      by_contra hlt
      have := e3 e' (by omega)
      omega
    · have hpos : 0 < v.size_alloced := by
        rw [he]
        exact Nat.two_pow_pos e
      obtain ⟨k, e1, e2, e3⟩ := grow_loop_pos r v.size_alloced r hpos (by omega)
      rw [e1, he, ← pow_add]
      rw [he, ← pow_add] at e2
      refine ⟨⟨e + k, rfl⟩, e2, ?_⟩
      intro e' he'
      apply Nat.pow_le_pow_right (by decide)
      by_contra hlt
      by_cases hle : e' ≤ e
      · have h1 : 2 ^ e' ≤ 2 ^ e := Nat.pow_le_pow_right (by decide) hle
        omega
      · have h2 := e3 (e' - e) (by omega)
        rw [he, ← pow_add] at h2
        have h3 : e + (e' - e) = e' := by omega
        rw [h3] at h2
        omega

/-- C5: on a vector (with `size <= capacity`), `resize(n)` for `n` above the capacity gives
size `n` and capacity exactly `n`, keeps the elements at indices below the old size, and makes
every element at an index in `[old size, n)` a default-constructed `T`. -/
theorem resize_beyond_capacity {T : Type} [Inhabited T] (v : vector_t T) (n : Nat)
    (hn : v.capacity < n) (h : v.size ≤ v.capacity) :
    (v.resize n).size = n ∧
    (v.resize n).capacity = n ∧
    (∀ i, i < v.size → (v.resize n).items.cell i = v.items.cell i) ∧
    (∀ i, v.size ≤ i → i < n → (v.resize n).items.cell i = some default) := by
  have hn' : v.size_alloced < n := hn
  have h' : v.size_active ≤ v.size_alloced := h
  rw [resize_of_gt v n hn']
  refine ⟨internal_resize_size_active v n n, internal_resize_size_alloced v n n, ?_, ?_⟩
  · intro i hi
    have hi' : i < v.size_active := hi
    exact internal_resize_cell_lt v n n i (by omega) hi'
  · intro i hi1 hi2
    exact internal_resize_cell_new v n n i (by omega) hi1 hi2

/-- Witness for C5: `[1, 2, 3]` with capacity 4 resized to 7. -/
theorem resize_beyond_capacity_witness :
    (example_123.capacity < 7 ∧ example_123.size ≤ example_123.capacity) ∧
    ((example_123.resize 7).size = 7 ∧
    (example_123.resize 7).capacity = 7 ∧
    (∀ i, i < example_123.size → (example_123.resize 7).items.cell i = example_123.items.cell i) ∧
    (∀ i, example_123.size ≤ i → i < 7 → (example_123.resize 7).items.cell i = some default)) :=
  ⟨⟨by decide, by decide⟩, resize_beyond_capacity example_123 7 (by decide) (by decide)⟩

/-- C6 fails on the code: from `[1, 2, 3]` with capacity 4, `pop_back()` then `resize(3)`
makes slot 2 active again without constructing it, so it still holds 3 and not the default
value 0; and `resize(1)` then `resize(3)` leaves the destroyed slots 1 and 2 as raw storage. -/
theorem resize_within_capacity_stale :
    example_123.pop_back.size = 2 ∧ example_123.pop_back.capacity = 4 ∧
    (example_123.pop_back.resize 3).size = 3 ∧
    (example_123.pop_back.resize 3).items.cell 2 = some 3 ∧
    (example_123.pop_back.resize 3).items.cell 2 ≠ some default ∧
    ((example_123.resize 1).resize 3).size = 3 ∧
    ((example_123.resize 1).resize 3).items.cell 1 = none ∧
    ((example_123.resize 1).resize 3).items.cell 2 = none := by
  decide

/-- C7: on a vector (with `size <= capacity`), `resize(j)` for `j <= size` gives size `j`,
makes exactly the calls `destroy` on the slots `j, ..., old size - 1` (in this order) and no
other call on the allocator, leaves capacity and buffer pointer unchanged, and leaves every slot
outside `[j, old size)` unchanged, in particular the elements at indices below `j`. -/
theorem resize_shrink {T : Type} [Inhabited T] (v : vector_t T) (j : Nat)
    (hj : j ≤ v.size) (h : v.size ≤ v.capacity) :
    (v.resize j).size = j ∧
    (v.resize j).alloc.calls =
      v.alloc.calls ++ (List.range' j (v.size - j)).map alloc_call.destroy ∧
    ((List.range' j (v.size - j)).map alloc_call.destroy).length = v.size - j ∧
    (∀ i, i < j → (v.resize j).items.cell i = v.items.cell i) ∧
    (∀ i, v.size ≤ i → (v.resize j).items.cell i = v.items.cell i) ∧
    (v.resize j).capacity = v.capacity ∧
    (v.resize j).items.is_null = v.items.is_null := by
  have hj' : j ≤ v.size_active := hj
  have h' : v.size_active ≤ v.size_alloced := h
  rw [resize_of_le v j (by omega), internal_resize_same]
  refine ⟨rfl, rfl, by simp, ?_, ?_, rfl, rfl⟩
  · intro i hi
    have h3 : ¬ (j ≤ i ∧ i < v.size_active) := by omega
    simp only [if_neg h3]
  · intro i hi
    have hi' : v.size_active ≤ i := hi
    have h3 : ¬ (j ≤ i ∧ i < v.size_active) := by omega
    simp only [if_neg h3]

/-- Witness for C7: `[1, 2, 3]` with capacity 4 resized to 1. -/
theorem resize_shrink_witness :
    (1 ≤ example_123.size ∧ example_123.size ≤ example_123.capacity) ∧
    ((example_123.resize 1).size = 1 ∧
    (example_123.resize 1).alloc.calls =
      example_123.alloc.calls ++ (List.range' 1 (example_123.size - 1)).map alloc_call.destroy ∧
    ((List.range' 1 (example_123.size - 1)).map alloc_call.destroy).length =
      example_123.size - 1 ∧
    (∀ i, i < 1 → (example_123.resize 1).items.cell i = example_123.items.cell i) ∧
    (∀ i, example_123.size ≤ i →
      (example_123.resize 1).items.cell i = example_123.items.cell i) ∧
    (example_123.resize 1).capacity = example_123.capacity ∧
    (example_123.resize 1).items.is_null = example_123.items.is_null) :=
  ⟨⟨by decide, by decide⟩, resize_shrink example_123 1 (by decide) (by decide)⟩

/-- C8: on a vector with `size <= capacity`, `reserve(n)` with `n <= capacity` returns the
state unchanged; with `n > capacity` it gives capacity exactly `n`, the same size, and the same
value in every active slot. -/
theorem reserve_spec {T : Type} [Inhabited T] (v : vector_t T) (n : Nat)
    (_h : v.size ≤ v.capacity) :
    (n ≤ v.capacity → v.reserve n = v) ∧
    (v.capacity < n →
      (v.reserve n).capacity = n ∧ (v.reserve n).size = v.size ∧
      ∀ i, i < v.size → (v.reserve n).items.cell i = v.items.cell i) := by
  constructor
  · intro hle
    have hle' : n ≤ v.size_alloced := hle
    simp only [vector_t.reserve, if_pos hle']
  · intro hlt
    have hlt' : ¬ n ≤ v.size_alloced := by
      have : v.size_alloced < n := hlt
      omega
    simp only [vector_t.reserve, if_neg hlt']
    refine ⟨internal_resize_size_alloced _ _ _, internal_resize_size_active _ _ _, ?_⟩
    intro i hi
    exact internal_resize_cell_lt v _ _ i hi hi

/-- Witness for C8: `[1, 2, 3]` with capacity 4, reserving 10. -/
theorem reserve_spec_witness :
    example_123.size ≤ example_123.capacity ∧
    ((10 ≤ example_123.capacity → example_123.reserve 10 = example_123) ∧
    (example_123.capacity < 10 →
      (example_123.reserve 10).capacity = 10 ∧ (example_123.reserve 10).size = example_123.size ∧
      ∀ i, i < example_123.size →
        (example_123.reserve 10).items.cell i = example_123.items.cell i)) :=
  ⟨by decide, reserve_spec example_123 10 (by decide)⟩

/-- C9: from the empty vector, `reserve(N)` gives capacity `N`, and after each of the
following `N` `push_back` calls the capacity is still `N` and the allocator has received no
further call, for every `N` (a power of two or not). -/
theorem reserve_then_push_back {T : Type} [Inhabited T] (a : allocator_t) (N : Nat)
    (xs : List T) (hN : xs.length = N) :
    ((vector_t.mk_empty a : vector_t T).reserve N).capacity = N ∧
    ∀ k, k ≤ N →
      (((vector_t.mk_empty a).reserve N).push_all (xs.take k)).capacity = N ∧
      (((vector_t.mk_empty a).reserve N).push_all (xs.take k)).size = k ∧
      (((vector_t.mk_empty a).reserve N).push_all (xs.take k)).alloc =
        ((vector_t.mk_empty a : vector_t T).reserve N).alloc := by
  have hcap : ((vector_t.mk_empty a : vector_t T).reserve N).size_alloced = N := by
    by_cases h0 : N ≤ (vector_t.mk_empty a : vector_t T).size_alloced
    · simp only [vector_t.reserve, if_pos h0]
      have : (vector_t.mk_empty a : vector_t T).size_alloced = 0 := rfl
      omega
    · simp only [vector_t.reserve, if_neg h0, internal_resize_size_alloced]
  have hsz : ((vector_t.mk_empty a : vector_t T).reserve N).size_active = 0 := by
    by_cases h0 : N ≤ (vector_t.mk_empty a : vector_t T).size_alloced
    · simp only [vector_t.reserve, if_pos h0]
      rfl
    · simp only [vector_t.reserve, if_neg h0, internal_resize_size_active]
      rfl
  refine ⟨hcap, ?_⟩
  intro k hk
  have hlen : (xs.take k).length = k := by
    rw [List.length_take]
    omega
  have hr := push_all_room (xs.take k) ((vector_t.mk_empty a : vector_t T).reserve N)
    (by rw [hsz, hcap, hlen]; omega)
  refine ⟨hr.1.trans hcap, ?_, hr.2⟩
  show (((vector_t.mk_empty a).reserve N).push_all (xs.take k)).size_active = k
  rw [push_all_size_active, hsz, hlen]
  omega

/-- Witness for C9 with `N = 3` (not a power of two) and the values 1, 2, 3. -/
theorem reserve_then_push_back_witness :
    [1, 2, 3].length = 3 ∧
    (((vector_t.mk_empty fresh_alloc : vector_t Nat).reserve 3).capacity = 3 ∧
    ∀ k, k ≤ 3 →
      (((vector_t.mk_empty fresh_alloc).reserve 3).push_all ([1, 2, 3].take k)).capacity = 3 ∧
      (((vector_t.mk_empty fresh_alloc).reserve 3).push_all ([1, 2, 3].take k)).size = k ∧
      (((vector_t.mk_empty fresh_alloc).reserve 3).push_all ([1, 2, 3].take k)).alloc =
        ((vector_t.mk_empty fresh_alloc : vector_t Nat).reserve 3).alloc) :=
  ⟨rfl, reserve_then_push_back fresh_alloc 3 [1, 2, 3] rfl⟩

/-- C10: on a vector with `size <= capacity`, `shrink_to_fit()` gives a capacity equal to the
size, leaves the size unchanged and leaves every active element unchanged. -/
theorem shrink_to_fit_spec {T : Type} [Inhabited T] (v : vector_t T)
    (_h : v.size ≤ v.capacity) :
    v.shrink_to_fit.capacity = v.shrink_to_fit.size ∧
    v.shrink_to_fit.size = v.size ∧
    ∀ i, i < v.size → v.shrink_to_fit.items.cell i = v.items.cell i := by
  refine ⟨?_, internal_resize_size_active _ _ _, ?_⟩
  · show (v.internal_resize v.size_active v.size_active).size_alloced =
      (v.internal_resize v.size_active v.size_active).size_active
    rw [internal_resize_size_alloced, internal_resize_size_active]
  · intro i hi
    exact internal_resize_cell_lt v _ _ i hi hi

/-- Witness for C10: `[1, 2]` with capacity 4, obtained from `[1, 2, 3]` by `pop_back()`. -/
theorem shrink_to_fit_spec_witness :
    example_123.pop_back.size ≤ example_123.pop_back.capacity ∧
    (example_123.pop_back.shrink_to_fit.capacity = example_123.pop_back.shrink_to_fit.size ∧
    example_123.pop_back.shrink_to_fit.size = example_123.pop_back.size ∧
    ∀ i, i < example_123.pop_back.size →
      example_123.pop_back.shrink_to_fit.items.cell i = example_123.pop_back.items.cell i) :=
  ⟨by decide, shrink_to_fit_spec example_123.pop_back (by decide)⟩

end embree

/-! ## Comparison, copies, moves and the heap -/

namespace embree

theorem eq_loop_iff {T : Type} [DecidableEq T] (a b : vector_t T) (n i : Nat) :
    eq_loop a b n i = true ↔ ∀ j, i ≤ j → j < i + n → a.subscript j = b.subscript j := by
  induction n generalizing i with
  | zero =>
    simp only [eq_loop, true_iff]
    intro j h1 h2
    omega
  | succ n ih =>
    by_cases h : a.subscript i = b.subscript i
    · simp only [eq_loop, ne_eq, h, not_true_eq_false, if_false, ih]
      constructor
      · intro hall j h1 h2
        by_cases hj : j = i
        · rw [hj]
          exact h
        · exact hall j (by omega) (by omega)
      · intro hall j h1 h2
        exact hall j (by omega) (by omega)
    · simp only [eq_loop, ne_eq, h, not_false_eq_true, if_true, Bool.false_eq_true, false_iff]
      intro hall
      exact h (hall i (le_refl i) (by omega))

theorem operator_eq_true_iff {T : Type} [DecidableEq T] (a b : vector_t T) :
    a.operator_eq b = true ↔
      a.size_active = b.size_active ∧
        ∀ i, i < a.size_active → a.items.cell i = b.items.cell i := by
  by_cases hs : a.size_active = b.size_active
  · simp only [vector_t.operator_eq, vector_t.size, ne_eq, hs, not_true_eq_false, if_false,
      Nat.sub_zero, eq_loop_iff, true_and, vector_t.subscript]
    constructor
    · intro hall i hi
      exact hall i (Nat.zero_le i) (by omega)
    · intro hall j _ hj
      exact hall j (by omega)
  · simp only [vector_t.operator_eq, vector_t.size, ne_eq, hs, not_false_eq_true, if_true,
      Bool.false_eq_true, false_and]

theorem resize_size_active {T : Type} [Inhabited T] (v : vector_t T) (n : Nat) :
    (v.resize n).size_active = n := by
  simp only [vector_t.resize, internal_resize_size_active]

theorem resize_size_alloced {T : Type} [Inhabited T] (v : vector_t T) (n : Nat) :
    (v.resize n).size_alloced = if v.size_alloced < n then n else v.size_alloced := by
  simp only [vector_t.resize, internal_resize_size_alloced]

theorem copy_construct_eq {T : Type} (a : allocator_t) (other : vector_t T) :
    vector_t.copy_construct a other =
      ⟨⟨a.null_on_zero, a.calls ++ [alloc_call.allocate other.size_alloced]⟩,
        other.size_active, other.size_alloced,
        ⟨decide (other.size_alloced = 0) && a.null_on_zero,
          fun j => if j < other.size_active then other.items.cell j else none⟩⟩ := by
  simp only [vector_t.copy_construct, for_loop, store_loop_eq, allocator_t.allocate,
    Nat.sub_zero, Nat.zero_add, Nat.zero_le, true_and]

theorem copy_assign_eq {T : Type} [Inhabited T] (v other : vector_t T) :
    v.copy_assign other =
      ⟨(v.resize other.size_active).alloc, other.size_active,
        (v.resize other.size_active).size_alloced,
        ⟨(v.resize other.size_active).items.is_null,
          fun j => if j < other.size_active then other.items.cell j
            else (v.resize other.size_active).items.cell j⟩⟩ := by
  simp only [vector_t.copy_assign, for_loop, store_loop_eq, resize_size_active,
    Nat.sub_zero, Nat.zero_add, Nat.zero_le, true_and]

theorem clear_eq {T : Type} (v : vector_t T) :
    v.clear =
      ⟨⟨v.alloc.null_on_zero, v.alloc.calls ++
          ((List.range v.size_active).map alloc_call.destroy ++
            [alloc_call.deallocate v.size_alloced])⟩,
        0, 0, pointer.nullptr⟩ := by
  simp only [vector_t.clear, for_loop, destroy_loop_eq, allocator_t.deallocate,
    Nat.sub_zero, List.range_eq_range', List.append_assoc]

theorem push_back_invariant {T : Type} [Inhabited T] (v : vector_t T) (x : T) :
    (v.push_back x).invariant := by
  refine ⟨Nat.zero_le _, ?_⟩
  rw [push_back_size_active, push_back_size_alloced]
  exact internal_grow_exit v (v.size_active + 1)

theorem resize_invariant {T : Type} [Inhabited T] (v : vector_t T) (n : Nat) :
    (v.resize n).invariant := by
  refine ⟨Nat.zero_le _, ?_⟩
  rw [resize_size_active, resize_size_alloced]
  split <;> omega

theorem internal_resize_null {T : Type} [Inhabited T] (v : vector_t T) (a n : Nat)
    (h : v.null_iff_no_capacity) (hz : n = 0 → n = v.size_alloced ∨ v.alloc.null_on_zero = true) :
    (v.internal_resize a n).null_iff_no_capacity := by
  by_cases hn : n = v.size_alloced
  · subst hn
    rw [internal_resize_same]
    exact h
  · rw [internal_resize_realloc v a n hn]
    show (decide (n = 0) && v.alloc.null_on_zero) = true ↔ n = 0
    by_cases h0 : n = 0
    · rcases hz h0 with h1 | h1
      · exact absurd h1 hn
      · simp [h0, h1]
    · simp [h0]

theorem internal_resize_null_on_zero {T : Type} [Inhabited T] (v : vector_t T) (a n : Nat) :
    (v.internal_resize a n).alloc.null_on_zero = v.alloc.null_on_zero := by
  by_cases hn : n = v.size_alloced
  · subst hn
    rw [internal_resize_same]
  · rw [internal_resize_realloc v a n hn]

theorem resize_null {T : Type} [Inhabited T] (v : vector_t T) (n : Nat)
    (h : v.null_iff_no_capacity) : (v.resize n).null_iff_no_capacity := by
  apply internal_resize_null v _ _ h
  intro h0
  left
  split at h0
  · omega
  · split <;> omega

theorem push_back_null {T : Type} [Inhabited T] (v : vector_t T) (x : T)
    (h : v.null_iff_no_capacity) : (v.push_back x).null_iff_no_capacity := by
  have key : (v.internal_grow (v.size_active + 1)).null_iff_no_capacity := by
    by_cases hr : v.size_active + 1 ≤ v.size_alloced
    · rw [internal_grow_of_le v _ hr]
      exact h
    · rw [internal_grow_of_gt v _ (by omega)]
      apply internal_resize_null v _ _ h
      intro h0
      have := grow_loop_exit (v.size_active + 1) v.size_alloced (v.size_active + 1) (by omega)
      omega
  exact key

theorem heap_store_loop_frame {T : Type} (p q : Nat) (hpq : p ≠ q)
    (g : Nat → heap T → Option T) (n lo : Nat) (h : heap T) :
    (for_count n lo (fun i k => k.store p i (g i k)) h).block q = h.block q ∧
    (for_count n lo (fun i k => k.store p i (g i k)) h).live = h.live ∧
    (for_count n lo (fun i k => k.store p i (g i k)) h).next = h.next := by
  induction n generalizing lo h with
  | zero => exact ⟨rfl, rfl, rfl⟩
  | succ n ih =>
    rw [for_count]
    obtain ⟨e1, e2, e3⟩ := ih (lo + 1) (h.store p lo (g lo h))
    refine ⟨?_, e2, e3⟩
    rw [e1]
    simp only [heap.store, ne_eq, hpq.symm, not_false_eq_true, Function.update_noteq]

theorem heap_copy_loop_block {T : Type} (p q : Nat) (hpq : p ≠ q) (n lo : Nat) (h : heap T)
    (j : Nat) :
    (for_count n lo (fun i k => k.store p i (k.block q i)) h).block p j =
      if lo ≤ j ∧ j < lo + n then h.block q j else h.block p j := by
  induction n generalizing lo h with
  | zero =>
    have h0 : ¬ (lo ≤ j ∧ j < lo + 0) := by omega
    simp only [for_count, if_neg h0]
  | succ n ih =>
    rw [for_count, ih]
    have hq : (h.store p lo (h.block q lo)).block q = h.block q := by
      simp only [heap.store, ne_eq, hpq.symm, not_false_eq_true, Function.update_noteq]
    have hp : (h.store p lo (h.block q lo)).block p j =
        if j = lo then h.block q lo else h.block p j := by
      simp only [heap.store, Function.update_same, Function.update_apply]
    rw [hq, hp]
    by_cases hj : j = lo
    · subst hj
      have h1 : ¬ (j + 1 ≤ j ∧ j < j + 1 + n) := by omega
      have h2 : j ≤ j ∧ j < j + (n + 1) := by omega
      simp only [if_neg h1, if_pos h2, if_true]
    · by_cases h1 : lo + 1 ≤ j ∧ j < lo + 1 + n
      · have h2 : lo ≤ j ∧ j < lo + (n + 1) := by omega
        simp only [if_pos h1, if_pos h2]
      · have h2 : ¬ (lo ≤ j ∧ j < lo + (n + 1)) := by omega
        simp only [if_neg h1, if_neg h2, if_neg hj]

theorem heap_allocate_frame {T : Type} (h : heap T) (nz : Bool) (n q : Nat)
    (hq : q ≤ h.next) (hq0 : q ≠ 0) :
    (h.allocate nz n).1.block q = h.block q ∧ (h.allocate nz n).1.live q = h.live q ∧
    q ≤ (h.allocate nz n).1.next ∧ (h.allocate nz n).2 ≠ q := by
  by_cases hc : n = 0 ∧ nz = true
  · have he : h.allocate nz n = (h, 0) := by
      simp only [heap.allocate, if_pos hc]
    rw [he]
    exact ⟨rfl, rfl, hq, fun e => hq0 e.symm⟩
  · have hne : q ≠ h.next + 1 := by omega
    simp only [heap.allocate, if_neg hc, ne_eq, hne, not_false_eq_true, Function.update_noteq,
      true_and]
    constructor
    · omega
    · omega

theorem keeps_buffer_refl {T : Type} (q : Nat) (s : heap T × vector_ref)
    (hq : q ≤ s.1.next) (hne : s.2.items ≠ q) : keeps_buffer q s s :=
  ⟨rfl, rfl, hq, hne⟩

theorem keeps_buffer_trans {T : Type} (q : Nat) (s1 s2 s3 : heap T × vector_ref)
    (h12 : keeps_buffer q s1 s2) (h23 : keeps_buffer q s2 s3) : keeps_buffer q s1 s3 :=
  ⟨h23.1.trans h12.1, h23.2.1.trans h12.2.1, h23.2.2.1, h23.2.2.2⟩

theorem vector_ref_internal_resize_keeps {T : Type} [Inhabited T] (s : heap T × vector_ref)
    (a n q : Nat) (hq0 : q ≠ 0) (hq : q ≤ s.1.next) (hne : s.2.items ≠ q) :
    keeps_buffer q s (vector_ref.internal_resize s a n) := by
  obtain ⟨d1, d2, d3⟩ := heap_store_loop_frame s.2.items q hne (fun _ _ => (none : Option T))
    (s.2.size_active - a) a s.1
  by_cases hn : n = s.2.size_alloced
  · simp only [vector_ref.internal_resize, if_pos hn, for_loop]
    refine ⟨d1, by rw [d2], ?_, hne⟩
    show q ≤ (for_count (s.2.size_active - a) a (fun i k => k.store s.2.items i none) s.1).next
    rw [d3]
    exact hq
  · simp only [vector_ref.internal_resize, if_neg hn, for_loop]
    generalize hh1 : for_count (s.2.size_active - a) a
      (fun i (k : heap T) => k.store s.2.items i none) s.1 = h1 at d1 d2 d3
    obtain ⟨a1, a2, a3, a4⟩ := heap_allocate_frame h1 s.2.null_on_zero n q
      (by rw [d3]; exact hq) hq0
    generalize (h1.allocate s.2.null_on_zero n) = r at a1 a2 a3 a4
    obtain ⟨b1, b2, b3⟩ := heap_store_loop_frame r.2 q a4
      (fun i k => k.block s.2.items i)
      ((if a < s.2.size_active then a else s.2.size_active) - 0) 0 r.1
    generalize for_count ((if a < s.2.size_active then a else s.2.size_active) - 0) 0
      (fun i (k : heap T) => k.store r.2 i (k.block s.2.items i)) r.1 = h2 at b1 b2 b3
    obtain ⟨c1, c2, c3⟩ := heap_store_loop_frame r.2 q a4
      (fun _ _ => (some default : Option T))
      (a - (if a < s.2.size_active then a else s.2.size_active))
      (if a < s.2.size_active then a else s.2.size_active) h2
    refine ⟨?_, ?_, ?_, a4⟩
    · show (heap.deallocate _ _).block q = s.1.block q
      simp only [heap.deallocate]
      rw [c1, b1, a1, d1]
    · show (heap.deallocate _ _).live q = s.1.live q
      simp only [heap.deallocate, ne_eq, hne.symm, not_false_eq_true, Function.update_noteq]
      rw [c2, b2, a2, d2]
    · show q ≤ (heap.deallocate _ _).next
      simp only [heap.deallocate]
      rw [c3, b3]
      exact a3

theorem heap_store_frame {T : Type} (h : heap T) (p q i : Nat) (x : Option T) (hpq : p ≠ q) :
    (h.store p i x).block q = h.block q ∧ (h.store p i x).live = h.live ∧
    (h.store p i x).next = h.next := by
  simp only [heap.store, ne_eq, hpq.symm, not_false_eq_true, Function.update_noteq, and_self]

theorem mutation_apply_keeps {T : Type} [Inhabited T] (m : mutation T)
    (s : heap T × vector_ref) (q : Nat) (hq0 : q ≠ 0) (hq : q ≤ s.1.next)
    (hne : s.2.items ≠ q) : keeps_buffer q s (m.apply s) := by
  cases m with
  | push_back x =>
    have hg : keeps_buffer q s (vector_ref.internal_grow s (s.2.size_active + 1)) := by
      by_cases hr : s.2.size_active + 1 ≤ s.2.size_alloced
      · simp only [vector_ref.internal_grow, if_pos hr]
        exact keeps_buffer_refl q s hq hne
      · simp only [vector_ref.internal_grow, if_neg hr]
        exact vector_ref_internal_resize_keeps s _ _ q hq0 hq hne
    obtain ⟨g1, g2, g3, g4⟩ := hg
    simp only [mutation.apply, vector_ref.push_back]
    generalize vector_ref.internal_grow s (s.2.size_active + 1) = s1 at g1 g2 g3 g4
    obtain ⟨e1, e2, e3⟩ := heap_store_frame s1.1 s1.2.items q s1.2.size_active (some x) g4
    exact ⟨e1.trans g1, by rw [e2]; exact g2, by rw [e3]; exact g3, g4⟩
  | pop_back =>
    exact ⟨rfl, rfl, hq, hne⟩
  | resize n =>
    exact vector_ref_internal_resize_keeps s _ _ q hq0 hq hne
  | assign i x =>
    obtain ⟨e1, e2, e3⟩ := heap_store_frame s.1 s.2.items q i (some x) hne
    refine ⟨e1, ?_, ?_, hne⟩
    · show (s.1.store s.2.items i (some x)).live q = s.1.live q
      rw [e2]
    · show q ≤ (s.1.store s.2.items i (some x)).next
      rw [e3]
      exact hq

theorem mutation_run_keeps {T : Type} [Inhabited T] (ms : List (mutation T))
    (s s2 : heap T × vector_ref) (q : Nat) (hq0 : q ≠ 0) (hq : q ≤ s.1.next)
    (hne : s.2.items ≠ q) (hrun : mutation.run ms s = some s2) : keeps_buffer q s s2 := by
  induction ms generalizing s with
  | nil =>
    simp only [mutation.run, Option.some.injEq] at hrun
    rw [← hrun]
    exact keeps_buffer_refl q s hq hne
  | cons m ms ih =>
    by_cases ha : m.asserted s.2 = true
    · simp only [mutation.run, if_pos ha] at hrun
      have h1 := mutation_apply_keeps m s q hq0 hq hne
      exact keeps_buffer_trans q s _ s2 h1 (ih (m.apply s) h1.2.2.1 h1.2.2.2 hrun)
    · simp only [mutation.run, if_neg ha] at hrun
      exact absurd hrun (by simp)

theorem vector_ref_copy_construct_keeps {T : Type} (h : heap T) (nz : Bool) (src : vector_ref)
    (hq0 : src.items ≠ 0) (hq : src.items ≤ h.next) :
    keeps_buffer src.items (h, src) (vector_ref.copy_construct h nz src) ∧
    ∀ i, i < src.size_active →
      (vector_ref.copy_construct h nz src).1.block (vector_ref.copy_construct h nz src).2.items i
        = h.block src.items i := by
  obtain ⟨a1, a2, a3, a4⟩ := heap_allocate_frame h nz src.size_alloced src.items hq hq0
  simp only [vector_ref.copy_construct, for_loop]
  generalize (h.allocate nz src.size_alloced) = r at a1 a2 a3 a4
  obtain ⟨b1, b2, b3⟩ := heap_store_loop_frame r.2 src.items a4
    (fun i k => k.block src.items i) (src.size_active - 0) 0 r.1
  refine ⟨⟨b1.trans a1, by rw [b2]; exact a2, by rw [b3]; exact a3, a4⟩, ?_⟩
  intro i hi
  rw [heap_copy_loop_block r.2 src.items a4]
  have hin : 0 ≤ i ∧ i < 0 + (src.size_active - 0) := by omega
  rw [if_pos hin, a1]

theorem mutation_run_example :
    (mutation.run [mutation.push_back 9, mutation.assign 0 7, mutation.pop_back,
        mutation.resize 1, mutation.resize 9, mutation.push_back 5]
      (vector_ref.copy_construct example_heap true example_ref)).map (fun s => s.2) =
      some ⟨true, 10, 18, 4⟩ := by
  decide

theorem vector_ref_copy_construct_counts {T : Type} (h : heap T) (nz : Bool)
    (src : vector_ref) :
    (vector_ref.copy_construct h nz src).2.size_active = src.size_active ∧
    (vector_ref.copy_construct h nz src).2.size_alloced = src.size_alloced :=
  ⟨rfl, rfl⟩

end embree

/-! ## The claims on removal, comparison, copies, moves and access -/

namespace embree

/-- C11: on a non-empty vector the assertion of `pop_back()` holds and the call decreases the
size by exactly one and changes nothing else: capacity, allocator and the whole buffer are
the same, so the remaining active elements and the vacated slot hold their old values. -/
theorem pop_back_spec {T : Type} (v : vector_t T) (h : 0 < v.size) :
    v.pop_back_assert = true ∧
    v.pop_back.size + 1 = v.size ∧
    v.pop_back.capacity = v.capacity ∧
    v.pop_back.alloc = v.alloc ∧
    v.pop_back.items = v.items ∧
    (∀ i, i < v.pop_back.size → v.pop_back.items.cell i = v.items.cell i) ∧
    v.pop_back.items.cell (v.size - 1) = v.items.cell (v.size - 1) := by
  have h' : 0 < v.size_active := h
  refine ⟨?_, ?_, rfl, rfl, rfl, fun _ _ => rfl, rfl⟩
  · have h0 : v.size_active ≠ 0 := by omega
    simp [vector_t.pop_back_assert, vector_t.empty, h0]
  · show v.size_active - 1 + 1 = v.size_active
    omega

/-- Witness for C11: `[1, 2, 3]` with capacity 4 becomes `[1, 2]` with capacity 4. -/
theorem pop_back_spec_witness :
    0 < example_123.size ∧
    (example_123.pop_back_assert = true ∧
    example_123.pop_back.size + 1 = example_123.size ∧
    example_123.pop_back.capacity = example_123.capacity ∧
    example_123.pop_back.alloc = example_123.alloc ∧
    example_123.pop_back.items = example_123.items ∧
    (∀ i, i < example_123.pop_back.size →
      example_123.pop_back.items.cell i = example_123.items.cell i) ∧
    example_123.pop_back.items.cell (example_123.size - 1) =
      example_123.items.cell (example_123.size - 1)) :=
  ⟨by decide, pop_back_spec example_123 (by decide)⟩

/-- C12: `a == b` holds if and only if the sizes are equal and `a[i]` equals `b[i]` for every
`i` below the size; the result is the same for any two vectors with the same sizes and the
same elements below the size, whatever their capacities, allocators and other slots; and
`a != b` is the negation of `a == b`. -/
theorem operator_eq_spec {T : Type} [DecidableEq T] (a b : vector_t T) :
    (a.operator_eq b = true ↔
      a.size = b.size ∧ ∀ i, i < a.size → a.subscript i = b.subscript i) ∧
    (∀ a2 b2 : vector_t T, a2.size = a.size → b2.size = b.size →
      (∀ i, i < a.size → a2.subscript i = a.subscript i) →
      (∀ i, i < b.size → b2.subscript i = b.subscript i) →
      a2.operator_eq b2 = a.operator_eq b) ∧
    a.operator_ne b = !(a.operator_eq b) := by
  refine ⟨operator_eq_true_iff a b, ?_, rfl⟩
  intro a2 b2 ha hb hca hcb
  have ha' : a2.size_active = a.size_active := ha
  have hb' : b2.size_active = b.size_active := hb
  rw [Bool.eq_iff_iff, operator_eq_true_iff, operator_eq_true_iff, ha', hb']
  constructor
  · rintro ⟨hs, hall⟩
    refine ⟨hs, fun i hi => ?_⟩
    have h1 := hca i hi
    have h2 := hcb i (show i < b.size_active by omega)
    have h3 := hall i hi
    simp only [vector_t.subscript] at h1 h2
    rw [← h1, ← h2]
    exact h3
  · rintro ⟨hs, hall⟩
    refine ⟨hs, fun i hi => ?_⟩
    have h1 := hca i hi
    have h2 := hcb i (show i < b.size_active by omega)
    have h3 := hall i hi
    simp only [vector_t.subscript] at h1 h2
    rw [h1, h2]
    exact h3

/-- C13: for a source whose buffer is in the heap (or is null, with no element), the vector
made by the copy constructor compares equal to the source under `operator==` and has the size,
capacity and active elements that the copy constructor gives on the vector held for the
source; the copy constructor leaves the elements of the source as they were; and after any
run of `push_back`, `pop_back`, `resize` and element overwrites on the copy, the source has the
same size and the same elements as before, and its buffer is as live as before. -/
theorem copy_construct_spec {T : Type} [Inhabited T] [DecidableEq T] (h : heap T) (nz : Bool)
    (src : vector_ref) (hsrc : src.items ≤ h.next) (hnull : src.items = 0 → src.size = 0)
    (a : allocator_t) :
    (((vector_ref.copy_construct h nz src).2.view (vector_ref.copy_construct h nz src).1).operator_eq
      (src.view h) = true) ∧
    (((vector_ref.copy_construct h nz src).2.view (vector_ref.copy_construct h nz src).1).size =
      (vector_t.copy_construct a (src.view h)).size) ∧
    (((vector_ref.copy_construct h nz src).2.view (vector_ref.copy_construct h nz src).1).capacity =
      (vector_t.copy_construct a (src.view h)).capacity) ∧
    (∀ i, i < src.size →
      ((vector_ref.copy_construct h nz src).2.view (vector_ref.copy_construct h nz src).1).subscript i
        = (vector_t.copy_construct a (src.view h)).subscript i) ∧
    (∀ i, i < src.size →
      (src.view (vector_ref.copy_construct h nz src).1).subscript i = (src.view h).subscript i) ∧
    (∀ (ms : List (mutation T)) (s2 : heap T × vector_ref),
      mutation.run ms (vector_ref.copy_construct h nz src) = some s2 →
      (src.view s2.1).size = (src.view h).size ∧
      (∀ i, i < src.size → (src.view s2.1).subscript i = (src.view h).subscript i) ∧
      (src.items ≠ 0 → s2.1.live src.items = h.live src.items)) := by
  have hvc : ∀ i, i < src.size_active →
      (vector_t.copy_construct a (src.view h)).items.cell i = h.block src.items i := by
    intro i hi
    rw [copy_construct_eq]
    have hi' : i < (src.view h).size_active := hi
    simp only [hi', if_true]
    rfl
  by_cases hq0 : src.items = 0
  · have hz : src.size_active = 0 := hnull hq0
    refine ⟨?_, rfl, rfl, ?_, ?_, ?_⟩
    · rw [operator_eq_true_iff]
      refine ⟨rfl, ?_⟩
      intro i hi
      have hi' : i < src.size_active := hi
      omega
    · intro i hi
      have hi' : i < src.size_active := hi
      omega
    · intro i hi
      have hi' : i < src.size_active := hi
      omega
    · intro ms s2 _
      refine ⟨rfl, ?_, fun hne => absurd hq0 hne⟩
      intro i hi
      have hi' : i < src.size_active := hi
      omega
  · obtain ⟨hk, hc⟩ := vector_ref_copy_construct_keeps h nz src hq0 hsrc
    refine ⟨?_, rfl, rfl, ?_, ?_, ?_⟩
    · rw [operator_eq_true_iff]
      refine ⟨rfl, ?_⟩
      intro i hi
      exact hc i hi
    · intro i hi
      show (vector_ref.copy_construct h nz src).1.block
        (vector_ref.copy_construct h nz src).2.items i = _
      rw [hc i hi]
      exact (hvc i hi).symm
    · intro i _
      show (vector_ref.copy_construct h nz src).1.block src.items i = h.block src.items i
      rw [hk.1]
    · intro ms s2 hrun
      have hr := mutation_run_keeps ms _ s2 src.items hq0 hk.2.2.1 hk.2.2.2 hrun
      refine ⟨rfl, ?_, fun _ => hr.2.1.trans hk.2.1⟩
      intro i _
      show s2.1.block src.items i = h.block src.items i
      rw [hr.1, hk.1]

/-- Witness for C13: the vector `[1, 2, 3]` with capacity 4 at address 1 of a heap. -/
theorem copy_construct_spec_witness :
    (example_ref.items ≤ example_heap.next ∧ (example_ref.items = 0 → example_ref.size = 0)) ∧
    ((((vector_ref.copy_construct example_heap true example_ref).2.view
        (vector_ref.copy_construct example_heap true example_ref).1).operator_eq
      (example_ref.view example_heap) = true) ∧
    (((vector_ref.copy_construct example_heap true example_ref).2.view
        (vector_ref.copy_construct example_heap true example_ref).1).size =
      (vector_t.copy_construct fresh_alloc (example_ref.view example_heap)).size) ∧
    (((vector_ref.copy_construct example_heap true example_ref).2.view
        (vector_ref.copy_construct example_heap true example_ref).1).capacity =
      (vector_t.copy_construct fresh_alloc (example_ref.view example_heap)).capacity) ∧
    (∀ i, i < example_ref.size →
      ((vector_ref.copy_construct example_heap true example_ref).2.view
        (vector_ref.copy_construct example_heap true example_ref).1).subscript i
        = (vector_t.copy_construct fresh_alloc (example_ref.view example_heap)).subscript i) ∧
    (∀ i, i < example_ref.size →
      (example_ref.view (vector_ref.copy_construct example_heap true example_ref).1).subscript i
        = (example_ref.view example_heap).subscript i) ∧
    (∀ (ms : List (mutation Nat)) (s2 : heap Nat × vector_ref),
      mutation.run ms (vector_ref.copy_construct example_heap true example_ref) = some s2 →
      (example_ref.view s2.1).size = (example_ref.view example_heap).size ∧
      (∀ i, i < example_ref.size →
        (example_ref.view s2.1).subscript i = (example_ref.view example_heap).subscript i) ∧
      (example_ref.items ≠ 0 → s2.1.live example_ref.items = example_heap.live example_ref.items))) :=
  ⟨⟨by decide, by decide⟩,
    copy_construct_spec example_heap true example_ref (by decide) (by decide) fresh_alloc⟩

/-- C14: after the copy assignment `dst = src` the destination compares equal to `src` under
`operator==`: it has the size of `src` and the same element at every index below that size.
The source is a `const` argument; when it is the destination itself (`v = v`), size and
active elements of `v` are unchanged. -/
theorem copy_assign_spec {T : Type} [Inhabited T] [DecidableEq T] (dst src : vector_t T) :
    (dst.copy_assign src).operator_eq src = true ∧
    (dst.copy_assign src).size = src.size ∧
    (∀ i, i < src.size → (dst.copy_assign src).subscript i = src.subscript i) ∧
    (src.copy_assign src).size = src.size ∧
    (∀ i, i < src.size → (src.copy_assign src).subscript i = src.subscript i) := by
  have hc : ∀ d : vector_t T, ∀ i, i < src.size_active →
      (d.copy_assign src).items.cell i = src.items.cell i := by
    intro d i hi
    rw [copy_assign_eq]
    simp only [hi, if_true]
  have hs : ∀ d : vector_t T, (d.copy_assign src).size_active = src.size_active := by
    intro d
    rw [copy_assign_eq]
  refine ⟨?_, hs dst, hc dst, hs src, hc src⟩
  rw [operator_eq_true_iff]
  refine ⟨hs dst, ?_⟩
  intro i hi
  rw [hs dst] at hi
  exact hc dst i hi

/-- C15: move construction and move assignment give a destination with the size, the capacity
and the buffer (hence the active elements) that `src` had, and leave `src` with size 0,
capacity 0 and a null buffer. -/
theorem move_spec {T : Type} (dst src : vector_t T) :
    ((vector_t.move_construct src).1.size = src.size ∧
      (vector_t.move_construct src).1.capacity = src.capacity ∧
      (vector_t.move_construct src).1.items = src.items ∧
      (vector_t.move_construct src).1.active = src.active ∧
      (vector_t.move_construct src).2.size = 0 ∧
      (vector_t.move_construct src).2.capacity = 0 ∧
      (vector_t.move_construct src).2.items.is_null = true) ∧
    ((dst.move_assign src).1.size = src.size ∧
      (dst.move_assign src).1.capacity = src.capacity ∧
      (dst.move_assign src).1.items = src.items ∧
      (dst.move_assign src).1.active = src.active ∧
      (dst.move_assign src).2.size = 0 ∧
      (dst.move_assign src).2.capacity = 0 ∧
      (dst.move_assign src).2.items.is_null = true) :=
  ⟨⟨rfl, rfl, rfl, rfl, rfl, rfl, rfl⟩, ⟨rfl, rfl, rfl, rfl, rfl, rfl, rfl⟩⟩

/-- C16: `clear()` calls `destroy` once on each of the slots `0, ..., size - 1` (and on no
other slot), then `deallocate` on the buffer with the old capacity, and leaves the vector
empty: size 0, capacity 0, `empty()` true and a null buffer. -/
theorem clear_spec {T : Type} (v : vector_t T) :
    v.clear.alloc.calls =
      v.alloc.calls ++ ((List.range v.size).map alloc_call.destroy ++
        [alloc_call.deallocate v.capacity]) ∧
    ((List.range v.size).map alloc_call.destroy).length = v.size ∧
    ((List.range v.size).map alloc_call.destroy).Nodup ∧
    (∀ i, alloc_call.destroy i ∈ (List.range v.size).map alloc_call.destroy ↔ i < v.size) ∧
    v.clear.size = 0 ∧ v.clear.capacity = 0 ∧ v.clear.empty = true ∧
    v.clear.items.is_null = true := by
  rw [clear_eq]
  refine ⟨rfl, by simp, ?_, ?_, rfl, rfl, rfl, rfl⟩
  · apply List.Nodup.map
    · intro i j hij
      injection hij
    · exact List.nodup_range _
  · intro i
    simp

/-- C17: the predicate `0 <= size_active <= size_alloced` holds for the empty vector, the
pre-sized vector, the copy of a vector that satisfies it, and both vectors after a move from
a vector that satisfies it; and on a vector that satisfies it, `resize`, `reserve`,
`shrink_to_fit`, `push_back`, `pop_back` (when non-empty), `clear`, copy assignment and move
assignment (for the destination and the moved-from source) give vectors that satisfy it. -/
theorem invariant_preserved {T : Type} [Inhabited T] :
    (∀ a : allocator_t, (vector_t.mk_empty a : vector_t T).invariant) ∧
    (∀ (a : allocator_t) (n : Nat), (vector_t.mk_sized a n : vector_t T).invariant) ∧
    (∀ (a : allocator_t) (src : vector_t T), src.invariant →
      (vector_t.copy_construct a src).invariant) ∧
    (∀ src : vector_t T, src.invariant →
      (vector_t.move_construct src).1.invariant ∧ (vector_t.move_construct src).2.invariant) ∧
    (∀ v : vector_t T, v.invariant →
      (∀ n, (v.resize n).invariant) ∧
      (∀ n, (v.reserve n).invariant) ∧
      v.shrink_to_fit.invariant ∧
      (∀ x, (v.push_back x).invariant) ∧
      (0 < v.size → v.pop_back.invariant) ∧
      v.clear.invariant ∧
      (∀ src : vector_t T, (v.copy_assign src).invariant) ∧
      (∀ src : vector_t T, src.invariant →
        (v.move_assign src).1.invariant ∧ (v.move_assign src).2.invariant)) := by
  refine ⟨?_, ?_, ?_, ?_, ?_⟩
  · intro a
    exact ⟨le_refl 0, le_refl 0⟩
  · intro a n
    exact resize_invariant _ n
  · intro a src h
    rw [copy_construct_eq]
    exact h
  · intro src h
    exact ⟨h, le_refl 0, le_refl 0⟩
  · intro v h
    have h2 : v.size_active ≤ v.size_alloced := h.2
    refine ⟨resize_invariant v, ?_, ?_, push_back_invariant v, ?_, ?_, ?_, ?_⟩
    · intro n
      refine ⟨Nat.zero_le _, ?_⟩
      by_cases hn : n ≤ v.size_alloced
      · simp only [vector_t.reserve, if_pos hn]
        exact h2
      · simp only [vector_t.reserve, if_neg hn, internal_resize_size_active,
          internal_resize_size_alloced]
        omega
    · refine ⟨Nat.zero_le _, ?_⟩
      simp only [vector_t.shrink_to_fit, internal_resize_size_active,
        internal_resize_size_alloced, le_refl]
    · intro _
      refine ⟨Nat.zero_le _, ?_⟩
      show v.size_active - 1 ≤ v.size_alloced
      omega
    · rw [clear_eq]
      exact ⟨le_refl 0, le_refl 0⟩
    · intro src
      rw [copy_assign_eq]
      have := (resize_invariant v src.size_active).2
      rw [resize_size_active] at this
      exact ⟨Nat.zero_le _, this⟩
    · intro src hsrc
      exact ⟨hsrc, le_refl 0, le_refl 0⟩

/-- C18 fails as stated: with an allocator whose `allocate(0)` returns a non-null pointer, a
vector of size 0 and capacity 2 has a non-null buffer, and after `shrink_to_fit()` its
capacity is 0 while the buffer is still not null; likewise the copy of an empty vector has
capacity 0 and a non-null buffer. -/
theorem shrink_to_fit_buffer_not_null :
    ((vector_t.mk_empty nonnull_alloc : vector_t Nat).reserve 2).size = 0 ∧
    ((vector_t.mk_empty nonnull_alloc : vector_t Nat).reserve 2).capacity = 2 ∧
    ((vector_t.mk_empty nonnull_alloc : vector_t Nat).reserve 2).null_iff_no_capacity ∧
    ((vector_t.mk_empty nonnull_alloc : vector_t Nat).reserve 2).shrink_to_fit.capacity = 0 ∧
    ((vector_t.mk_empty nonnull_alloc : vector_t Nat).reserve 2).shrink_to_fit.items.is_null
      = false ∧
    ¬ ((vector_t.mk_empty nonnull_alloc : vector_t Nat).reserve 2).shrink_to_fit.null_iff_no_capacity ∧
    (vector_t.mk_empty nonnull_alloc : vector_t Nat).null_iff_no_capacity ∧
    ¬ (vector_t.copy_construct nonnull_alloc
        (vector_t.mk_empty nonnull_alloc : vector_t Nat)).null_iff_no_capacity := by
  refine ⟨by decide, by decide, ?_, by decide, by decide, ?_, ?_, ?_⟩
  · simp only [vector_t.null_iff_no_capacity]
    decide
  · simp only [vector_t.null_iff_no_capacity]
    decide
  · simp only [vector_t.null_iff_no_capacity]
    decide
  · simp only [vector_t.null_iff_no_capacity]
    decide

/-- C18, amended: the buffer is null exactly when the capacity is 0 for the empty and the
pre-sized vector, and this is preserved by `resize`, `reserve`, `push_back`, `pop_back`,
`clear`, copy assignment and move, whatever the allocator; `shrink_to_fit` and copy
construction preserve it when they do not call `allocate(0)` (size not 0, or size equal to
capacity, for `shrink_to_fit`; source capacity not 0 for the copy) or when `allocate(0)`
returns `nullptr`. -/
theorem null_iff_no_capacity_preserved {T : Type} [Inhabited T] :
    (∀ a : allocator_t, (vector_t.mk_empty a : vector_t T).null_iff_no_capacity) ∧
    (∀ (a : allocator_t) (n : Nat), (vector_t.mk_sized a n : vector_t T).null_iff_no_capacity) ∧
    (∀ (a : allocator_t) (src : vector_t T),
      src.capacity ≠ 0 ∨ a.null_on_zero = true →
      (vector_t.copy_construct a src).null_iff_no_capacity) ∧
    (∀ src : vector_t T, src.null_iff_no_capacity →
      (vector_t.move_construct src).1.null_iff_no_capacity ∧
      (vector_t.move_construct src).2.null_iff_no_capacity) ∧
    (∀ v : vector_t T, v.null_iff_no_capacity →
      (∀ n, (v.resize n).null_iff_no_capacity) ∧
      (∀ n, (v.reserve n).null_iff_no_capacity) ∧
      (v.size ≠ 0 ∨ v.size = v.capacity ∨ v.alloc.null_on_zero = true →
        v.shrink_to_fit.null_iff_no_capacity) ∧
      (∀ x, (v.push_back x).null_iff_no_capacity) ∧
      v.pop_back.null_iff_no_capacity ∧
      v.clear.null_iff_no_capacity ∧
      (∀ src : vector_t T, (v.copy_assign src).null_iff_no_capacity) ∧
      (∀ src : vector_t T, src.null_iff_no_capacity →
        (v.move_assign src).1.null_iff_no_capacity ∧
        (v.move_assign src).2.null_iff_no_capacity)) := by
  have hempty : ∀ a : allocator_t, (vector_t.mk_empty a : vector_t T).null_iff_no_capacity :=
    fun a => ⟨fun _ => rfl, fun _ => rfl⟩
  have hnull : ∀ a : allocator_t,
      (⟨a, 0, 0, pointer.nullptr⟩ : vector_t T).null_iff_no_capacity :=
    fun a => ⟨fun _ => rfl, fun _ => rfl⟩
  refine ⟨hempty, ?_, ?_, ?_, ?_⟩
  · intro a n
    exact resize_null _ n (hempty a)
  · intro a src hz
    rw [copy_construct_eq]
    show (decide (src.size_alloced = 0) && a.null_on_zero) = true ↔ src.size_alloced = 0
    rcases hz with h1 | h1
    · have h1' : ¬ src.size_alloced = 0 := h1
      simp [h1']
    · by_cases h0 : src.size_alloced = 0
      · simp [h0, h1]
      · simp [h0]
  · intro src h
    exact ⟨h, hnull _⟩
  · intro v h
    refine ⟨fun n => resize_null v n h, ?_, ?_, fun x => push_back_null v x h, h, ?_, ?_, ?_⟩
    · intro n
      by_cases hn : n ≤ v.size_alloced
      · simp only [vector_t.reserve, if_pos hn]
        exact h
      · simp only [vector_t.reserve, if_neg hn]
        apply internal_resize_null v _ _ h
        intro h0
        omega
    · intro hz
      apply internal_resize_null v _ _ h
      intro h0
      rcases hz with h1 | h1 | h1
      · exact absurd h0 h1
      · exact Or.inl h1
      · exact Or.inr h1
    · rw [clear_eq]
      exact hnull _
    · intro src
      rw [copy_assign_eq]
      exact resize_null v src.size_active h
    · intro src hsrc
      exact ⟨hsrc, hnull _⟩

/-- C19: the constructor `vector_t(n)` gives size `n` and capacity `n` with every element at
an index in `[0, n)` equal to a default-constructed `T`; for `n = 0` it gives the state of the
default constructor (size 0, capacity 0, null buffer, no call on the allocator). -/
theorem mk_sized_spec {T : Type} [Inhabited T] (a : allocator_t) (n : Nat) :
    (vector_t.mk_sized a n : vector_t T).size = n ∧
    (vector_t.mk_sized a n : vector_t T).capacity = n ∧
    (∀ i, i < n → (vector_t.mk_sized a n : vector_t T).items.cell i = some default) ∧
    (vector_t.mk_sized a 0 : vector_t T) = vector_t.mk_empty a ∧
    (vector_t.mk_sized a 0 : vector_t T).size = 0 ∧
    (vector_t.mk_sized a 0 : vector_t T).capacity = 0 ∧
    (vector_t.mk_sized a 0 : vector_t T).items.is_null = true := by
  have h0 : (vector_t.mk_sized a 0 : vector_t T) = vector_t.mk_empty a := by
    simp only [vector_t.mk_sized]
    rw [resize_of_le _ 0 (Nat.zero_le _)]
    have hc : (vector_t.mk_empty a : vector_t T).size_alloced = 0 := rfl
    have := internal_resize_same (vector_t.mk_empty a : vector_t T) 0
    rw [hc] at this
    rw [hc, this]
    simp only [vector_t.mk_empty, pointer.nullptr, Nat.sub_self, List.range'_zero, List.map_nil,
      List.append_nil, ite_self]
  refine ⟨resize_size_active _ n, ?_, ?_, h0, ?_, ?_, ?_⟩
  · show ((vector_t.mk_empty a : vector_t T).resize n).size_alloced = n
    rw [resize_size_alloced]
    show (if 0 < n then n else 0) = n
    split <;> omega
  · intro i hi
    simp only [vector_t.mk_sized]
    rw [resize_of_gt _ n (show (vector_t.mk_empty a : vector_t T).size_alloced < n from
      Nat.lt_of_le_of_lt (Nat.zero_le i) hi)]
    apply internal_resize_cell_new
    · show n ≠ 0
      omega
    · exact Nat.zero_le i
    · exact hi
  · rw [h0]
    rfl
  · rw [h0]
    rfl
  · rw [h0]
    rfl

/-- C20: on a vector with `size <= capacity` and for `i < size`, the assertions of
`operator[](i)` and `at(i)` hold, slot `i` is inside the allocated buffer, and both return
the `i`-th element of the active sequence; on a non-empty vector the assertions of `front()`
and `back()` hold, `front()` is the element at index 0 and `back()` the element at index
`size - 1`, the first and the last of the active sequence. -/
theorem element_access_spec {T : Type} (v : vector_t T) (h : v.size ≤ v.capacity) :
    (∀ i, i < v.size →
      v.subscript_assert i = true ∧ v.at_assert i = true ∧ i < v.capacity ∧
      v.subscript i = v.items.cell i ∧ v.at i = v.items.cell i ∧
      v.active[i]? = some (v.subscript i) ∧ v.active[i]? = some (v.at i)) ∧
    (0 < v.size →
      v.front_assert = true ∧ v.back_assert = true ∧
      v.front = v.items.cell 0 ∧ v.back = v.items.cell (v.size - 1) ∧
      0 < v.capacity ∧ v.size - 1 < v.capacity ∧
      v.active.head? = some v.front ∧ v.active.getLast? = some v.back) := by
  have h' : v.size_active ≤ v.size_alloced := h
  have hact : ∀ i, i < v.size_active → v.active[i]? = some (v.items.cell i) := by
    intro i hi
    simp [vector_t.active, hi]
  constructor
  · intro i hi
    have hi' : i < v.size_active := hi
    refine ⟨?_, ?_, ?_, rfl, rfl, hact i hi', hact i hi'⟩
    · simp [vector_t.subscript_assert, hi']
    · simp [vector_t.at_assert, hi']
    · show i < v.size_alloced
      omega
  · intro hpos
    have hpos' : 0 < v.size_active := hpos
    refine ⟨?_, ?_, rfl, rfl, ?_, ?_, ?_, ?_⟩
    · simp [vector_t.front_assert, hpos']
    · simp [vector_t.back_assert, hpos']
    · show 0 < v.size_alloced
      omega
    · show v.size_active - 1 < v.size_alloced
      omega
    · rw [List.head?_eq_getElem?]
      exact hact 0 hpos'
    · rw [List.getLast?_eq_getElem?]
      have hlen : v.active.length = v.size_active := by simp [vector_t.active]
      rw [hlen]
      exact hact (v.size_active - 1) (by omega)

/-- Witness for C20 on `[1, 2, 3]` with capacity 4. -/
theorem element_access_spec_witness :
    example_123.size ≤ example_123.capacity ∧
    ((∀ i, i < example_123.size →
      example_123.subscript_assert i = true ∧ example_123.at_assert i = true ∧
      i < example_123.capacity ∧
      example_123.subscript i = example_123.items.cell i ∧
      example_123.at i = example_123.items.cell i ∧
      example_123.active[i]? = some (example_123.subscript i) ∧
      example_123.active[i]? = some (example_123.at i)) ∧
    (0 < example_123.size →
      example_123.front_assert = true ∧ example_123.back_assert = true ∧
      example_123.front = example_123.items.cell 0 ∧
      example_123.back = example_123.items.cell (example_123.size - 1) ∧
      0 < example_123.capacity ∧ example_123.size - 1 < example_123.capacity ∧
      example_123.active.head? = some example_123.front ∧
      example_123.active.getLast? = some example_123.back)) :=
  ⟨by decide, element_access_spec example_123 (by decide)⟩

end embree

/-! ## Growth in 64-bit arithmetic and capacity changes -/

namespace embree

theorem grow_loop64_exit (fuel n r : Nat) (w : Bool) (h : r ≤ n) :
    grow_loop64 (fuel + 1) n r w = some (n, w) := by
  have h1 : ¬ n < r := by omega
  simp only [grow_loop64, if_neg h1]

theorem grow_loop64_step (fuel n r : Nat) (w : Bool) (hn : 0 < n) (h : n < r)
    (hr : r ≤ 2 ^ 63) :
    grow_loop64 (fuel + 1) n r w = grow_loop64 fuel (2 * n) r w := by
  have hlt : 2 * n < 2 ^ 64 := by
    have : (2 : Nat) ^ 64 = 2 * 2 ^ 63 := by norm_num
    omega
  have hmod : 2 * n % 2 ^ 64 = 2 * n := Nat.mod_eq_of_lt hlt
  have hne : ¬ (2 * n = 0) := by omega
  have hnw : ¬ (2 ^ 64 ≤ 2 * n) := by omega
  simp only [grow_loop64, if_pos h, hmod, if_neg hne, hnw, decide_False, Bool.or_false]

theorem grow_loop64_zero_step (fuel r : Nat) (w : Bool) (h : 0 < r) :
    grow_loop64 (fuel + 1) 0 r w = grow_loop64 fuel 1 r w := by
  simp [grow_loop64, h]

theorem grow_loop64_fuel (fuel extra n r : Nat) (w : Bool) (x : Nat × Bool)
    (h : grow_loop64 fuel n r w = some x) : grow_loop64 (fuel + extra) n r w = some x := by
  induction fuel generalizing n w with
  | zero => simp [grow_loop64] at h
  | succ f ih =>
    rw [Nat.add_right_comm]
    by_cases h1 : n < r
    · simp only [grow_loop64, if_pos h1] at h ⊢
      exact ih _ _ h
    · simp only [grow_loop64, if_neg h1] at h ⊢
      exact h

theorem grow_loop64_pos (fuel n r : Nat) (w : Bool) (hn : 0 < n) (hr : r ≤ 2 ^ 63)
    (h : r ≤ n * 2 ^ fuel) :
    ∃ k, grow_loop64 (fuel + 1) n r w = some (n * 2 ^ k, w) ∧ r ≤ n * 2 ^ k ∧
      ∀ j, j < k → n * 2 ^ j < r := by
  induction fuel generalizing n with
  | zero =>
    have h' : r ≤ n := by simpa using h
    refine ⟨0, ?_, by simpa using h', fun j hj => by omega⟩
    rw [grow_loop64_exit _ n r w h']
    simp
  | succ f ih =>
    by_cases h1 : n < r
    · rw [grow_loop64_step _ n r w hn h1 hr]
      have h2 : r ≤ 2 * n * 2 ^ f := by
        calc r ≤ n * 2 ^ (f + 1) := h
          _ = 2 * n * 2 ^ f := by ring
      obtain ⟨k, e1, e2, e3⟩ := ih (2 * n) (by omega) h2
      refine ⟨k + 1, ?_, ?_, ?_⟩
      · rw [e1]
        congr 2
        ring
      · calc r ≤ 2 * n * 2 ^ k := e2
          _ = n * 2 ^ (k + 1) := by ring
      · intro j hj
        cases j with
        | zero => simpa using h1
        | succ j =>
          have := e3 j (by omega)
          calc n * 2 ^ (j + 1) = 2 * n * 2 ^ j := by ring
            _ < r := this
    · have h' : r ≤ n := by omega
      refine ⟨0, ?_, by simpa using h', fun j hj => by omega⟩
      rw [grow_loop64_exit _ n r w h']
      simp

theorem least_doubling_unique (n r k1 k2 : Nat)
    (h1 : r ≤ n * 2 ^ k1) (m1 : ∀ j, j < k1 → n * 2 ^ j < r)
    (h2 : r ≤ n * 2 ^ k2) (m2 : ∀ j, j < k2 → n * 2 ^ j < r) : k1 = k2 := by
  rcases Nat.lt_trichotomy k1 k2 with hlt | heq | hgt
  · have := m2 k1 hlt
    omega
  · exact heq
  · have := m1 k2 hgt
    omega

theorem least_doubling_lt (n r k : Nat) (hn : n < r)
    (m : ∀ j, j < k → n * 2 ^ j < r) (hk : r ≤ n * 2 ^ k) : n * 2 ^ k < 2 * r := by
  cases k with
  | zero =>
    simp only [pow_zero, Nat.mul_one] at hk ⊢
    omega
  | succ k =>
    have := m k (by omega)
    calc n * 2 ^ (k + 1) = 2 * (n * 2 ^ k) := by ring
      _ < 2 * r := by omega

theorem grow_loop64_eq_grow_loop (c r fuel : Nat) (h1 : c < r) (h2 : r ≤ 2 ^ 63)
    (hf : 65 ≤ fuel) : grow_loop64 fuel c r false = some (grow_loop r c r, false) := by
  obtain ⟨e, he⟩ : ∃ e, fuel = 65 + e := ⟨fuel - 65, by omega⟩
  rw [he]
  apply grow_loop64_fuel
  by_cases hc : c = 0
  · subst hc
    rw [grow_loop64_zero_step 64 r false h1]
    obtain ⟨k, e1, e2, e3⟩ := grow_loop64_pos 63 1 r false (by omega) h2 (by simpa using h2)
    obtain ⟨k', f1, f2, f3⟩ := grow_loop_zero r r h1 (le_refl r)
    have hk : k = k' := least_doubling_unique 1 r k k' e2 e3 (by simpa using f2)
      (fun j hj => by simpa using f3 j hj)
    rw [e1, f1, hk]
    simp
  · have hpos : 0 < c := by omega
    have hle : r ≤ c * 2 ^ 64 := by
      have : 2 ^ 63 ≤ c * 2 ^ 64 := by
        have h64 : (2 : Nat) ^ 64 = 2 * 2 ^ 63 := by norm_num
        rw [h64]
        calc 2 ^ 63 ≤ 1 * (2 * 2 ^ 63) := by omega
          _ ≤ c * (2 * 2 ^ 63) := Nat.mul_le_mul_right _ hpos
      omega
    obtain ⟨k, e1, e2, e3⟩ := grow_loop64_pos 64 c r false hpos h2 hle
    obtain ⟨k', f1, f2, f3⟩ := grow_loop_pos r c r hpos (by omega)
    have hk : k = k' := least_doubling_unique c r k k' e2 e3 f2 f3
    rw [e1, f1, hk]

theorem push_back_size_alloced_ge {T : Type} [Inhabited T] (v : vector_t T) (x : T) :
    v.size_alloced ≤ (v.push_back x).size_alloced := by
  rw [push_back_size_alloced]
  by_cases h : v.size_active + 1 ≤ v.size_alloced
  · rw [internal_grow_of_le v _ h]
  · have := internal_grow_exit v (v.size_active + 1)
    omega

theorem push_back_pop_back_cell {T : Type} [Inhabited T] (v : vector_t T) (x : T) (i : Nat)
    (hi : i < v.size_active) : (v.push_back x).pop_back.items.cell i = v.items.cell i :=
  push_back_cell_lt v x i hi

theorem push_back_pop_back_size {T : Type} [Inhabited T] (v : vector_t T) (x : T) :
    (v.push_back x).pop_back.size_active = v.size_active := by
  show (v.push_back x).size_active - 1 = v.size_active
  rw [push_back_size_active]
  omega

end embree

/-! ## The claims on 64-bit growth, capacity monotonicity and append then remove -/

namespace embree

/-- C21: in 64-bit `size_t` arithmetic, for a capacity `c` and a required size `r` with
`c < r <= 2^63`, the doubling loop of `internal_grow` exits (within 65 tests of its condition)
without any doubling wrapping around; the capacity it selects is the one of the unbounded
model, it is at least `r`, below `2*r` and below `2^64`, it is `c * 2^k` for the least `k`
with `c * 2^k >= r` when `c > 0`, and the smallest power of two that is at least `r` when
`c = 0`. -/
theorem internal_grow_64bit {T : Type} [Inhabited T] (c r : Nat) (h1 : c < r)
    (h2 : r ≤ 2 ^ 63) :
    ∃ result,
      (∀ fuel, 65 ≤ fuel → grow_loop64 fuel c r false = some (result, false)) ∧
      (∀ v : vector_t T, v.capacity = c → (v.internal_grow r).capacity = result) ∧
      r ≤ result ∧ result < 2 * r ∧ result < 2 ^ 64 ∧
      (0 < c → ∃ k, result = c * 2 ^ k ∧ r ≤ c * 2 ^ k ∧ ∀ j, j < k → c * 2 ^ j < r) ∧
      (c = 0 → smallest_pow2_ge r result) := by
  refine ⟨grow_loop r c r, fun fuel hf => grow_loop64_eq_grow_loop c r fuel h1 h2 hf, ?_, ?_⟩
  · intro v hv
    have hv' : v.size_alloced = c := hv
    show (v.internal_grow r).size_alloced = grow_loop r c r
    rw [internal_grow_size_alloced v r (by omega), hv']
  · have hlt2 : grow_loop r c r < 2 * r := by
      by_cases hc : c = 0
      · subst hc
        obtain ⟨k, f1, f2, f3⟩ := grow_loop_zero r r h1 (le_refl r)
        rw [f1]
        cases k with
        | zero =>
          simp only [pow_zero]
          omega
        | succ k =>
          have := f3 k (by omega)
          calc 2 ^ (k + 1) = 2 * 2 ^ k := by ring
            _ < 2 * r := by omega
      · obtain ⟨k, f1, f2, f3⟩ := grow_loop_pos r c r (by omega) (by omega)
        rw [f1]
        exact least_doubling_lt c r k h1 f3 f2
    refine ⟨grow_loop_exit r c r (by omega), hlt2, ?_, ?_, ?_⟩
    · have h64 : (2 : Nat) ^ 64 = 2 * 2 ^ 63 := by norm_num
      omega
    · intro hpos
      exact grow_loop_pos r c r hpos (by omega)
    · intro hc
      subst hc
      obtain ⟨k, f1, f2, f3⟩ := grow_loop_zero r r h1 (le_refl r)
      rw [f1]
      refine ⟨⟨k, rfl⟩, f2, ?_⟩
      intro e he
      apply Nat.pow_le_pow_right (by decide)
      by_contra hlt
      have := f3 e (by omega)
      omega

/-- Witness for C21 with capacity 3 and required size 4. -/
theorem internal_grow_64bit_witness :
    (3 < 4 ∧ 4 ≤ 2 ^ 63) ∧
    ∃ result,
      (∀ fuel, 65 ≤ fuel → grow_loop64 fuel 3 4 false = some (result, false)) ∧
      (∀ v : vector_t Nat, v.capacity = 3 → (v.internal_grow 4).capacity = result) ∧
      4 ≤ result ∧ result < 2 * 4 ∧ result < 2 ^ 64 ∧
      (0 < 3 → ∃ k, result = 3 * 2 ^ k ∧ 4 ≤ 3 * 2 ^ k ∧ ∀ j, j < k → 3 * 2 ^ j < 4) ∧
      (3 = 0 → smallest_pow2_ge 4 result) :=
  ⟨⟨by decide, by decide⟩, internal_grow_64bit 3 4 (by decide) (by decide)⟩

/-- C22 fails as stated: the destination of a move assignment takes the capacity of the
source, so assigning an empty vector (capacity 0) to `[1, 2, 3]` with capacity 4 lowers the
capacity from 4 to 0, although the vector was not shrunk, cleared or moved from. -/
theorem move_assign_lowers_capacity :
    example_123.size ≤ example_123.capacity ∧
    example_123.capacity = 4 ∧
    (example_123.move_assign (vector_t.mk_empty fresh_alloc)).1.capacity = 0 ∧
    (example_123.move_assign (vector_t.mk_empty fresh_alloc)).1.capacity
      < example_123.capacity := by
  decide

/-- C22, amended: on a vector with `size <= capacity`, none of `push_back`, `pop_back` (on a
non-empty vector), `resize`, `reserve` and copy assignment to it decreases the capacity; the
capacity becomes the size after `shrink_to_fit`, 0 after `clear`, 0 in a vector that was
moved from, and the capacity of the source in the destination of a move assignment, so only
these can lower it. -/
theorem capacity_not_decreased {T : Type} [Inhabited T] (v : vector_t T)
    (h : v.size ≤ v.capacity) :
    (∀ x, v.capacity ≤ (v.push_back x).capacity) ∧
    (0 < v.size → v.capacity ≤ v.pop_back.capacity) ∧
    (∀ n, v.capacity ≤ (v.resize n).capacity) ∧
    (∀ n, v.capacity ≤ (v.reserve n).capacity) ∧
    (∀ src : vector_t T, v.capacity ≤ (v.copy_assign src).capacity) ∧
    (v.shrink_to_fit.capacity = v.size ∧ v.shrink_to_fit.capacity ≤ v.capacity) ∧
    v.clear.capacity = 0 ∧
    (vector_t.move_construct v).2.capacity = 0 ∧
    (∀ dst : vector_t T, (dst.move_assign v).2.capacity = 0) ∧
    (∀ src : vector_t T, (v.move_assign src).1.capacity = src.capacity) := by
  have h' : v.size_active ≤ v.size_alloced := h
  have hres : ∀ n, v.size_alloced ≤ (v.resize n).size_alloced := by
    intro n
    rw [resize_size_alloced]
    split <;> omega
  have hshrink : v.shrink_to_fit.size_alloced = v.size_active := by
    simp only [vector_t.shrink_to_fit, internal_resize_size_alloced]
  refine ⟨fun x => push_back_size_alloced_ge v x, fun _ => le_refl _, hres, ?_, ?_,
    ⟨hshrink, ?_⟩, ?_, rfl, fun _ => rfl, fun _ => rfl⟩
  · intro n
    show v.size_alloced ≤ (v.reserve n).size_alloced
    by_cases hn : n ≤ v.size_alloced
    · simp only [vector_t.reserve, if_pos hn, le_refl]
    · simp only [vector_t.reserve, if_neg hn, internal_resize_size_alloced]
      omega
  · intro src
    show v.size_alloced ≤ (v.copy_assign src).size_alloced
    rw [copy_assign_eq]
    exact hres src.size_active
  · show v.shrink_to_fit.size_alloced ≤ v.size_alloced
    rw [hshrink]
    exact h'
  · rw [clear_eq]
    rfl

/-- Witness for C22 (amended) on `[1, 2, 3]` with capacity 3. -/
theorem capacity_not_decreased_witness :
    example_reserved_123.size ≤ example_reserved_123.capacity ∧
    ((∀ x, example_reserved_123.capacity ≤ (example_reserved_123.push_back x).capacity) ∧
    (0 < example_reserved_123.size →
      example_reserved_123.capacity ≤ example_reserved_123.pop_back.capacity) ∧
    (∀ n, example_reserved_123.capacity ≤ (example_reserved_123.resize n).capacity) ∧
    (∀ n, example_reserved_123.capacity ≤ (example_reserved_123.reserve n).capacity) ∧
    (∀ src : vector_t Nat,
      example_reserved_123.capacity ≤ (example_reserved_123.copy_assign src).capacity) ∧
    (example_reserved_123.shrink_to_fit.capacity = example_reserved_123.size ∧
      example_reserved_123.shrink_to_fit.capacity ≤ example_reserved_123.capacity) ∧
    example_reserved_123.clear.capacity = 0 ∧
    (vector_t.move_construct example_reserved_123).2.capacity = 0 ∧
    (∀ dst : vector_t Nat, (dst.move_assign example_reserved_123).2.capacity = 0) ∧
    (∀ src : vector_t Nat,
      (example_reserved_123.move_assign src).1.capacity = src.capacity)) :=
  ⟨by decide, capacity_not_decreased example_reserved_123 (by decide)⟩

/-- C23: on a vector with `size <= capacity`, `push_back(x)` followed by `pop_back()` gives a
vector with the size and the active sequence of the original, equal to it under `operator==`;
the capacity is not below the original one, it is larger when the original was full, and it
is the original one when `size < capacity`. -/
theorem push_back_pop_back {T : Type} [Inhabited T] [DecidableEq T] (v : vector_t T) (x : T)
    (h : v.size ≤ v.capacity) :
    (v.push_back x).pop_back.size = v.size ∧
    (v.push_back x).pop_back.active = v.active ∧
    (v.push_back x).pop_back.operator_eq v = true ∧
    v.capacity ≤ (v.push_back x).pop_back.capacity ∧
    (v.size = v.capacity → v.capacity < (v.push_back x).pop_back.capacity) ∧
    (v.size < v.capacity → (v.push_back x).pop_back.capacity = v.capacity) := by
  have h' : v.size_active ≤ v.size_alloced := h
  have hs := push_back_pop_back_size v x
  refine ⟨hs, ?_, ?_, push_back_size_alloced_ge v x, ?_, ?_⟩
  · simp only [vector_t.active, hs]
    apply List.map_congr_left
    intro i hi
    exact push_back_pop_back_cell v x i (List.mem_range.mp hi)
  · rw [operator_eq_true_iff]
    refine ⟨hs, ?_⟩
    intro i hi
    rw [hs] at hi
    exact push_back_pop_back_cell v x i hi
  · intro heq
    show v.size_alloced < (v.push_back x).size_alloced
    rw [push_back_full_size_alloced v x heq]
    split <;> omega
  · intro hlt
    exact (push_back_room v x hlt).1

/-- Witness for C23 on `[1, 2, 3]` with capacity 3, where the append reallocates. -/
theorem push_back_pop_back_witness :
    example_reserved_123.size ≤ example_reserved_123.capacity ∧
    ((example_reserved_123.push_back 4).pop_back.size = example_reserved_123.size ∧
    (example_reserved_123.push_back 4).pop_back.active = example_reserved_123.active ∧
    (example_reserved_123.push_back 4).pop_back.operator_eq example_reserved_123 = true ∧
    example_reserved_123.capacity ≤ (example_reserved_123.push_back 4).pop_back.capacity ∧
    (example_reserved_123.size = example_reserved_123.capacity →
      example_reserved_123.capacity < (example_reserved_123.push_back 4).pop_back.capacity) ∧
    (example_reserved_123.size < example_reserved_123.capacity →
      (example_reserved_123.push_back 4).pop_back.capacity = example_reserved_123.capacity)) :=
  ⟨by decide, push_back_pop_back example_reserved_123 4 (by decide)⟩

end embree
